import Mathlib

/-!
Verification of the CHIRP audio engine core: ring buffer, sample-rate
normalization, MP3 decoder pool, stream lifecycle, mixer limiter and
chirp tone generator.  The definitions below are shallow embeddings of
`config.h` (struct `RingBuffer`) and `audio_playback.cpp`
(`fillStreamBuffers`, `mp3DataCallback`, `Mixer::processSample`,
`applyFastLimiter`, `playChirp`, `startStream`, `stopStream`).
Machine integers are modelled as `Nat`/`Int` with explicit reductions
modulo 2^32 where the C code relies on `uint32_t` wraparound.
-/

namespace AudioEngine

/-- `STREAM_BUFFER_SIZE` from `config.h`: 256K 16-bit sample slots per stream. -/
def STREAM_BUFFER_SIZE : Nat := 256 * 1024

/-- 2^32, the modulus of `uint32_t` arithmetic. -/
def U32 : Nat := 4294967296

/-- `MAX_STREAMS` from `config.h`. -/
def MAX_STREAMS : Nat := 3

/-- `MAX_MP3_DECODERS` from `config.h`. -/
def MAX_MP3_DECODERS : Nat := 2

/-- Arithmetic shift right by `n` bits on a signed value (`>> n` on an
`int32_t` in gcc), i.e. floor division by `2^n` (Euclidean division `/`
on `Int` agrees with floor division for a positive divisor). -/
def asr (x : Int) (n : Nat) : Int := x / 2 ^ n

/-- struct `RingBuffer` from `config.h`.  The C struct holds a possibly
null pointer into PSRAM plus two cursors; `allocated` models pointer
non-nullness and `data` the pointed-to sample array. -/
structure RingBuffer where
  allocated : Bool
  data : Nat → Int
  readPos : Nat
  writePos : Nat

/-- `RingBuffer::availableForRead` from `config.h`. -/
def RingBuffer.availableForRead (rb : RingBuffer) : Nat :=
  if rb.allocated then (rb.writePos + STREAM_BUFFER_SIZE - rb.readPos) % STREAM_BUFFER_SIZE
  else 0

/-- `RingBuffer::availableForWrite` from `config.h`. -/
def RingBuffer.availableForWrite (rb : RingBuffer) : Nat :=
  if rb.allocated then
    (STREAM_BUFFER_SIZE - 1) -
      ((rb.writePos + STREAM_BUFFER_SIZE - rb.readPos) % STREAM_BUFFER_SIZE)
  else 0

/-- `RingBuffer::push` from `config.h`: refuses when the buffer is full
(one slot always kept empty) or unallocated. -/
def RingBuffer.push (rb : RingBuffer) (sample : Int) : RingBuffer × Bool :=
  if rb.allocated then
    let nextWrite := (rb.writePos + 1) % STREAM_BUFFER_SIZE
    if nextWrite = rb.readPos then (rb, false)
    else
      ({ rb with data := fun j => if j = rb.writePos then sample else rb.data j,
                 writePos := nextWrite }, true)
  else (rb, false)

/-- `RingBuffer::pop` from `config.h`: unconditionally reads the slot at
`readPos` and advances the read cursor (no emptiness check). -/
def RingBuffer.pop (rb : RingBuffer) : RingBuffer × Int :=
  if rb.allocated then
    ({ rb with readPos := (rb.readPos + 1) % STREAM_BUFFER_SIZE }, rb.data rb.readPos)
  else (rb, 0)

/-- `RingBuffer::clear` from `config.h`. -/
def RingBuffer.clear (rb : RingBuffer) : RingBuffer :=
  { rb with readPos := 0, writePos := 0 }

/-- Cursor well-formedness: both cursors lie in `[0, STREAM_BUFFER_SIZE)`,
as maintained by every operation of the C struct. -/
def RingBuffer.wf (rb : RingBuffer) : Prop :=
  rb.readPos < STREAM_BUFFER_SIZE ∧ rb.writePos < STREAM_BUFFER_SIZE

instance (rb : RingBuffer) : Decidable rb.wf := by
  unfold RingBuffer.wf; infer_instance

/-- Abstraction function: the queue of buffered samples, oldest first. -/
def RingBuffer.contents (rb : RingBuffer) : List Int :=
  (List.range rb.availableForRead).map
    (fun i => rb.data ((rb.readPos + i) % STREAM_BUFFER_SIZE))

/-- A freshly cleared, allocated stream buffer, as produced by
`initAudioSystem` (`pmalloc` succeeded, both cursors reset). -/
def rbEmpty : RingBuffer :=
  { allocated := true, data := fun _ => 0, readPos := 0, writePos := 0 }

/-- One ring-buffer operation of a producer/consumer history. -/
inductive BufOp where
  | push (v : Int)
  | pop
deriving DecidableEq

/-- Run a history of operations against the concrete ring buffer,
collecting the popped samples in order. -/
def runRing (rb : RingBuffer) : List BufOp → RingBuffer × List Int
  | [] => (rb, [])
  | BufOp.push v :: ops =>
    let r := rb.push v
    runRing r.1 ops
  | BufOp.pop :: ops =>
    let r := rb.pop
    let rest := runRing r.1 ops
    (rest.1, r.2 :: rest.2)

/-- A history is legal when each push happens with `availableForWrite() >= 1`
and each pop with `availableForRead() >= 1` (the discipline required of
callers by the spec). -/
def legalRun (rb : RingBuffer) : List BufOp → Bool
  | [] => true
  | BufOp.push v :: ops =>
    decide (1 ≤ rb.availableForWrite) && legalRun (rb.push v).1 ops
  | BufOp.pop :: ops =>
    decide (1 ≤ rb.availableForRead) && legalRun rb.pop.1 ops

/-- Run the same history against an ideal FIFO queue. -/
def runQueue (q : List Int) : List BufOp → List Int × List Int
  | [] => (q, [])
  | BufOp.push v :: ops => runQueue (q ++ [v]) ops
  | BufOp.pop :: ops =>
    let rest := runQueue q.tail ops
    (rest.1, q.headD 0 :: rest.2)

/-! ### Sample-rate / channel normalization (`fillStreamBuffers`,
`mp3DataCallback` in `audio_playback.cpp`) -/

/-- Reinterpretation of a little-endian byte pair as `int16_t`:
`(int16_t)(lo | (hi << 8))`. -/
def toInt16 (n : Nat) : Int :=
  if n % 65536 < 32768 then ((n % 65536 : Nat) : Int)
  else ((n % 65536 : Nat) : Int) - 65536

/-- `int samples = bytesRead / 2` plus the per-index byte pairing
`(int16_t)(wavBuf[k*2] | (wavBuf[k*2+1] << 8))` of the raw-WAV path. -/
def pairBytes : List Nat → List Int
  | b0 :: b1 :: rest => toInt16 (b0 % 256 + 256 * (b1 % 256)) :: pairBytes rest
  | _ => []

/-- The stereo 22.05 kHz loop (identical in `fillStreamBuffers` and
`mp3DataCallback`): per input frame push L,R,L,R, stopping at the first
failed push (`break`); an unpaired trailing sample is dropped. -/
def fill22Stereo (rb : RingBuffer) : List Int → RingBuffer
  | l :: r :: rest =>
    let p1 := rb.push l
    if !p1.2 then p1.1 else
    let p2 := p1.1.push r
    if !p2.2 then p2.1 else
    let p3 := p2.1.push l
    if !p3.2 then p3.1 else
    let p4 := p3.1.push r
    if !p4.2 then p4.1 else
    fill22Stereo p4.1 rest
  | _ => rb

/-- The mono 22.05 kHz loop (identical in `fillStreamBuffers` and
`mp3DataCallback`): each source sample pushed four times (L1,R1,L2,R2),
stopping at the first failed push. -/
def fill22Mono (rb : RingBuffer) : List Int → RingBuffer
  | [] => rb
  | s :: rest =>
    let p1 := rb.push s
    if !p1.2 then p1.1 else
    let p2 := p1.1.push s
    if !p2.2 then p2.1 else
    let p3 := p2.1.push s
    if !p3.2 then p3.1 else
    let p4 := p3.1.push s
    if !p4.2 then p4.1 else
    fill22Mono p4.1 rest

/-- The 44.1 kHz loop of the raw-WAV path in `fillStreamBuffers`:
mono is duplicated to both channels, stereo passes through; push return
values are ignored (a failed push silently drops the sample). -/
def wavFill44 (channels : Nat) : RingBuffer → List Int → RingBuffer
  | rb, [] => rb
  | rb, s :: rest =>
    if channels = 1 then wavFill44 channels ((rb.push s).1.push s).1 rest
    else wavFill44 channels (rb.push s).1 rest

/-- The 44.1 kHz loop of `mp3DataCallback`: mono is duplicated with a
`break` on a failed push; stereo passes through ignoring the push result. -/
def mp3Fill44 (channels : Nat) : RingBuffer → List Int → RingBuffer
  | rb, [] => rb
  | rb, s :: rest =>
    if channels = 1 then
      let p1 := rb.push s
      if !p1.2 then p1.1 else
      let p2 := p1.1.push s
      if !p2.2 then p2.1 else
      mp3Fill44 channels p2.1 rest
    else mp3Fill44 channels (rb.push s).1 rest

/-- The per-chunk normalization of the raw-WAV branch of
`fillStreamBuffers` (lines 287-337 of `audio_playback.cpp`): the bytes
read from the file are paired into little-endian `int16_t` samples and
dispatched on the stream's source sample rate and channel count. -/
def fillStreamBuffersWavChunk (channels sampleRate : Nat) (rb : RingBuffer)
    (bytes : List Nat) : RingBuffer :=
  let samples := pairBytes bytes
  if sampleRate = 22050 then
    if channels = 2 then fill22Stereo rb samples
    else fill22Mono rb samples
  else
    if channels = 1 then wavFill44 1 rb samples
    else wavFill44 channels rb samples

/-- The buffer-filling portion of `mp3DataCallback`: decoded PCM is
normalized by the decoder-reported channel count and sample rate and
pushed into the current stream's ring buffer.  (The callback's
opportunistic population of `streams[i].sampleRate` is metadata
bookkeeping and does not affect the pushes.) -/
def mp3DataCallback (nChans samprate : Nat) (rb : RingBuffer)
    (pcm : List Int) : RingBuffer :=
  if samprate = 22050 then
    if nChans = 2 then fill22Stereo rb pcm
    else fill22Mono rb pcm
  else mp3Fill44 nChans rb pcm

/-- Spec-side description of mono-to-stereo duplication at 44.1 kHz. -/
def mono44Expand : List Int → List Int
  | [] => []
  | s :: rest => s :: s :: mono44Expand rest

/-- Spec-side description of the 4x expansion of a mono 22.05 kHz source. -/
def mono22Expand : List Int → List Int
  | [] => []
  | s :: rest => s :: s :: s :: s :: mono22Expand rest

/-- Spec-side description of frame duplication of a stereo 22.05 kHz source. -/
def stereo22Expand : List Int → List Int
  | l :: r :: rest => l :: r :: l :: r :: stereo22Expand rest
  | _ => []

/-! ### Chirp tone generator (`playChirp`, `Mixer::processSample`) -/

/-- `SINE_LUT` from `audio_playback.cpp`: one signed-8-bit sine cycle. -/
def SINE_LUT : List Int :=
  [0, 3, 6, 9, 12, 15, 18, 21, 24, 27, 30, 33, 36, 39, 42, 45,
   48, 51, 54, 57, 60, 63, 65, 68, 71, 73, 76, 78, 81, 83, 85, 88,
   90, 92, 94, 96, 98, 100, 102, 104, 106, 107, 109, 110, 112, 113, 115, 116,
   117, 118, 120, 121, 122, 122, 123, 124, 125, 125, 126, 126, 126, 127, 127, 127,
   127, 127, 127, 127, 126, 126, 126, 125, 125, 124, 123, 122, 122, 121, 120, 118,
   117, 116, 115, 113, 112, 110, 109, 107, 106, 104, 102, 100, 98, 96, 94, 92,
   90, 88, 85, 83, 81, 78, 76, 73, 71, 68, 65, 63, 60, 57, 54, 51,
   48, 45, 42, 39, 36, 33, 30, 27, 24, 21, 18, 15, 12, 9, 6, 3,
   0, -3, -6, -9, -12, -15, -18, -21, -24, -27, -30, -33, -36, -39, -42, -45,
   -48, -51, -54, -57, -60, -63, -65, -68, -71, -73, -76, -78, -81, -83, -85, -88,
   -90, -92, -94, -96, -98, -100, -102, -104, -106, -107, -109, -110, -112, -113, -115, -116,
   -117, -118, -120, -121, -122, -122, -123, -124, -125, -125, -126, -126, -126, -127, -127, -127,
   -127, -127, -127, -127, -126, -126, -126, -125, -125, -124, -123, -122, -122, -121, -120, -118,
   -117, -116, -115, -113, -112, -110, -109, -107, -106, -104, -102, -100, -98, -96, -94, -92,
   -90, -88, -85, -83, -81, -78, -76, -73, -71, -68, -65, -63, -60, -57, -54, -51,
   -48, -45, -42, -39, -36, -33, -30, -27, -24, -21, -18, -15, -12, -9, -6, -3]

/-- struct `ChirpState` from `audio_playback.cpp`.  `phase`, `phaseInc`,
`targetInc`, `samplesLeft` are `uint32_t` (values kept below 2^32),
`sweepStep` is `int32_t`, `volume` is `uint8_t`. -/
structure ChirpState where
  active : Bool
  phase : Nat
  phaseInc : Nat
  targetInc : Nat
  sweepStep : Int
  samplesLeft : Nat
  volume : Nat

/-- The tone-generator section of `Mixer::processSample` (lines 397-431
of `audio_playback.cpp`): returns the updated chirp state and the sample
contribution added identically to both mix channels. -/
def chirpToneStep (c : ChirpState) : ChirpState × Int :=
  if c.active then
    if 0 < c.samplesLeft then
      let sample := SINE_LUT.getD (c.phase / 2 ^ 24) 0
      let sample := sample * 256
      let sample := asr (sample * (c.volume : Int)) 8
      let phase' := (c.phase + c.phaseInc) % U32
      let inc' :=
        if c.sweepStep ≠ 0 then
          let t := (Int.emod ((c.phaseInc : Int) + c.sweepStep) (U32 : Int)).toNat
          let t := if 0 < c.sweepStep ∧ c.targetInc < t then c.targetInc else t
          if c.sweepStep < 0 ∧ t < c.targetInc then c.targetInc else t
        else c.phaseInc
      ({ c with phase := phase', phaseInc := inc', samplesLeft := c.samplesLeft - 1 }, sample)
    else ({ c with active := false }, 0)
  else (c, 0)

/-- `playChirp` from `audio_playback.cpp`.  The C routine computes the
phase increments through `double` arithmetic
(`incPerHz = 2^32 / 44100.0`, truncated to `uint32_t`) and the sweep
step as the truncated `double` quotient of the increment delta by the
sample count; this model performs the same computations with exact
integer arithmetic (floor for the non-negative increments, `Int.div`
truncation for the step), which yields the same integers for the
frequencies of interest.  Frequencies and duration are taken
non-negative (`int` arguments for which the `uint32_t` conversions are
defined); `durationMs <= 0` leaves the generator unchanged. -/
def playChirp (c : ChirpState) (startFreq endFreq durationMs vol : Nat) : ChirpState :=
  if durationMs = 0 then c
  else
    let startInc : Nat := startFreq * 4294967296 / 44100
    let endInc : Nat := endFreq * 4294967296 / 44100
    let totalSamples : Nat := durationMs * 44100 / 1000
    let step : Int :=
      if 0 < totalSamples then Int.tdiv ((endInc : Int) - (startInc : Int)) (totalSamples : Int)
      else 0
    { active := true, phase := 0, phaseInc := startInc, targetInc := endInc,
      sweepStep := step, samplesLeft := totalSamples, volume := vol % 256 }

/-- `k` consecutive tone-generator steps (one per mixer output frame). -/
def chirpRun (c : ChirpState) : Nat → ChirpState
  | 0 => c
  | k + 1 => chirpRun (chirpToneStep c).1 k

/-- The power-on value of the global `chirp` instance:
`{false, 0, 0, 0, 0, 0, 0}`. -/
def chirpInit : ChirpState :=
  { active := false, phase := 0, phaseInc := 0, targetInc := 0,
    sweepStep := 0, samplesLeft := 0, volume := 0 }

/-! ### Mixer (`Mixer::processSample`, `applyFastLimiter`, `i32_to_i16`) -/

/-- `i32_to_i16` from `audio_playback.cpp`. -/
def i32_to_i16 (v : Int) : Int :=
  if 32767 < v then 32767 else if v < -32768 then -32768 else v

/-- `applyFastLimiter` from `audio_playback.cpp`. -/
def applyFastLimiter (l r : Int) : Int × Int :=
  (if 32767 < l then 32767 else if l < -32768 then -32768 else l,
   if 32767 < r then 32767 else if r < -32768 then -32768 else r)

/-- The per-stream slice of mixer state read by `Mixer::processSample`.
`volume` is the C `float` in `[0,1]`, modelled as an exact rational. -/
structure MixStream where
  active : Bool
  volume : Rat
  startTime : Nat
  rb : RingBuffer

/-- A full-volume mixer stream past its fade-in window whose allocated
buffer holds 4 samples of value 30000 (so one frame pops 30000/30000). -/
def fullVolStream : MixStream :=
  { active := true, volume := 1, startTime := 0,
    rb := { allocated := true, data := fun _ => 30000, readPos := 0, writePos := 4 } }

/-- The per-stream section of `Mixer::processSample` (lines 368-394 of
`audio_playback.cpp`): guarded double pop, fixed-point volume with the
50 ms fade-in ramp and master attenuation, producing the gain-scaled
left/right contributions.  `now` is `millis()`; the `uint32_t`
subtraction `millis() - startTime` is modelled modulo 2^32.
`(int32_t)(volume * 256.0f)` is modelled as the floor of the exact
rational product — written as `(volume.num * 256).fdiv volume.den` —
which is exact for the in-range volumes 0.0-1.0. -/
def streamStep (now : Nat) (master : Int) (s : MixStream) : MixStream × Int × Int :=
  if s.active = true ∧ 2 ≤ s.rb.availableForRead then
    let p1 := s.rb.pop
    let p2 := p1.1.pop
    let volFixed : Int := Int.fdiv (s.volume.num * 256) (s.volume.den : Int)
    let elapsed := ((now % U32) + U32 - (s.startTime % U32)) % U32
    let volFixed :=
      if elapsed < 50 then
        let ramp : Int := ((elapsed * 256) / 50 : Nat)
        let ramp := if 256 < ramp then 256 else ramp
        asr (volFixed * ramp) 8
      else volFixed
    let gain := asr (volFixed * master) 8
    ({ s with rb := p2.1 }, asr (p1.2 * gain) 8, asr (p2.2 * gain) 8)
  else (s, 0, 0)

/-- The stream-mixing loop of `Mixer::processSample`: accumulates the
contributions of all stream slots into the 32-bit accumulators. -/
def mixStreams (now : Nat) (master : Int) : List MixStream → List MixStream × Int × Int
  | [] => ([], 0, 0)
  | s :: rest =>
    let r1 := streamStep now master s
    let rr := mixStreams now master rest
    (r1.1 :: rr.1, r1.2.1 + rr.2.1, r1.2.2 + rr.2.2)

/-- Result of one mixer output frame: updated state, the raw 32-bit
accumulator values after all streams and the tone generator, and the
two emitted samples. -/
structure MixResult where
  streams : List MixStream
  chirp : ChirpState
  accLeft : Int
  accRight : Int
  outLeft : Int
  outRight : Int

/-- `Mixer::processSample` from `audio_playback.cpp` (lines 362-437):
mix all streams, add the chirp contribution to both channels, hard-limit
and emit via `i2s.write16(i32_to_i16(l), i32_to_i16(r))`. -/
def processSample (now : Nat) (master : Int) (streams : List MixStream)
    (c : ChirpState) : MixResult :=
  let m := mixStreams now master streams
  let ct := chirpToneStep c
  let accL := m.2.1 + ct.2
  let accR := m.2.2 + ct.2
  let lim := applyFastLimiter accL accR
  { streams := m.1, chirp := ct.1, accLeft := accL, accRight := accR,
    outLeft := i32_to_i16 lim.1, outRight := i32_to_i16 lim.2 }

/-! ### Stream lifecycle (`startStream`, `stopStream`) -/

/-- enum `StreamType` from `config.h`. -/
inductive StreamType where
  | inactive
  | wavFlash
  | wavSD
  | mp3SD
deriving DecidableEq

/-- Filenames are modelled as their ASCII byte lists (C `const char*`).
`startsWithBytes l p` is `strncmp(l, p, strlen(p)) == 0`. -/
def startsWithBytes : List Nat → List Nat → Bool
  | _, [] => true
  | [], _ :: _ => false
  | a :: as, b :: bs => a = b && startsWithBytes as bs

/-- ASCII lower-casing of a byte list (the effect of `strcasecmp` on the
extension comparison). -/
def lowerBytes (l : List Nat) : List Nat :=
  l.map fun c => if 65 ≤ c ∧ c ≤ 90 then c + 32 else c

/-- `ext && strcasecmp(ext, ".mp3") == 0` where `ext = strrchr(filename, '.')`:
the last dot starts the suffix `.mp3` (case-insensitively) exactly when the
lower-cased name ends with `".mp3"` — the suffix itself contains the last
dot, and no later dot can occur inside `"mp3"`. -/
def endsWithBytes (l suffix : List Nat) : Bool :=
  decide (suffix.length ≤ l.length) &&
    startsWithBytes (l.drop (l.length - suffix.length)) suffix

/-- ASCII bytes of `"/flash/"`. -/
def flashTag : List Nat := [47, 102, 108, 97, 115, 104, 47]

/-- ASCII bytes of `".mp3"`. -/
def mp3Tag : List Nat := [46, 109, 112, 51]

/-- An open file: its bytes and the current position (models the
`File`/`FsFile` handles used by the stream code). -/
structure FileHandle where
  bytes : List Nat
  pos : Nat
deriving DecidableEq

/-- `file.read(buf, n)`: take up to `n` bytes at the current position,
advancing it by the number of bytes actually read. -/
def fileRead (f : FileHandle) (n : Nat) : FileHandle × List Nat :=
  let chunk := (f.bytes.drop f.pos).take n
  ({ f with pos := f.pos + chunk.length }, chunk)

/-- `file.seek(p)`. -/
def fileSeek (f : FileHandle) (p : Nat) : FileHandle := { f with pos := p }

/-- `file.available()`: bytes remain past the current position. -/
def fileAvail (f : FileHandle) : Bool := f.pos < f.bytes.length

/-- struct `AudioStream` from `config.h` (the fields the lifecycle code
reads and writes). -/
structure AudioStream where
  active : Bool
  type : StreamType
  volume : Rat
  decoderIndex : Int
  flashFile : Option FileHandle
  sdFile : Option FileHandle
  rb : RingBuffer
  filename : List Nat
  stopRequested : Bool
  fileFinished : Bool
  channels : Nat
  sampleRate : Nat
  startTime : Nat

/-- A fresh slot as produced by `initAudioSystem`. -/
def defaultStream : AudioStream :=
  { active := false, type := StreamType.inactive, volume := 1,
    decoderIndex := -1, flashFile := none, sdFile := none,
    rb := { allocated := true, data := fun _ => 0, readPos := 0, writePos := 0 },
    filename := [], stopRequested := false, fileFinished := false,
    channels := 0, sampleRate := 0, startTime := 0 }

/-- The shared state touched by `startStream`/`stopStream`: the stream
slots and the decoder-pool in-use flags. -/
structure AudioSys where
  streams : List AudioStream
  decoderInUse : List Bool

/-- The environment of a `startStream` call: both filesystems (a file's
bytes, or `none` when the open fails) and the current `millis()`. -/
structure Env where
  flashFS : List Nat → Option (List Nat)
  sdFS : List Nat → Option (List Nat)
  now : Nat

/-- `stopStream` from `audio_playback.cpp`: no-op on an out-of-range
index or an already-inactive slot; otherwise clears `active`, releases
the decoder, closes the file, resets the type and the ring buffer. -/
def stopStream (sys : AudioSys) (idx : Int) : AudioSys :=
  if idx < 0 ∨ (MAX_STREAMS : Int) ≤ idx then sys
  else
    let i := idx.toNat
    let s := sys.streams.getD i defaultStream
    if s.active = false ∧ s.type = StreamType.inactive then sys
    else
      let s := { s with active := false }
      let pool :=
        if s.type = StreamType.mp3SD ∧ s.decoderIndex ≠ -1 then
          sys.decoderInUse.set s.decoderIndex.toNat false
        else sys.decoderInUse
      let s :=
        if s.type = StreamType.mp3SD ∧ s.decoderIndex ≠ -1 then
          { s with decoderIndex := -1 }
        else s
      let s :=
        if s.type = StreamType.wavFlash then { s with flashFile := none }
        else if s.type = StreamType.wavSD ∨ s.type = StreamType.mp3SD then
          { s with sdFile := none }
        else s
      let s := { s with type := StreamType.inactive, rb := s.rb.clear }
      { sys with streams := sys.streams.set i s, decoderInUse := pool }

/-- Byte of a list at an index; positions past the end read as 0
(modelling the zero-filled tail of a short header read). -/
def byteAt (l : List Nat) (i : Nat) : Nat := l.getD i 0

/-- Little-endian 16-bit field of a byte list. -/
def le16 (l : List Nat) (i : Nat) : Nat := byteAt l i + 256 * byteAt l (i + 1)

/-- Little-endian 32-bit field of a byte list. -/
def le32 (l : List Nat) (i : Nat) : Nat :=
  byteAt l i + 256 * byteAt l (i + 1) + 65536 * byteAt l (i + 2) +
    16777216 * byteAt l (i + 3)

/-- ASCII bytes of `"data"`. -/
def dataTag : List Nat := [100, 97, 116, 97]

/-- The chunk-scan loop of `startStream`: from the current position,
read a 4-byte chunk id and 4-byte little-endian length, stop on `data`,
otherwise skip the chunk; ends when the file is exhausted.  Each
iteration strictly advances the position, so `bytes.length + 1` fuel
always suffices. -/
def scanForData (f : FileHandle) : Nat → FileHandle
  | 0 => f
  | fuel + 1 =>
    if fileAvail f then
      let r1 := fileRead f 4
      let r2 := fileRead r1.1 4
      if r1.2 = dataTag then r2.1
      else scanForData (fileSeek r2.1 (r2.1.pos + le32 r2.2 0)) fuel
    else f

/-- The decoder-pool search loop of `startStream`: index of the first
pool entry whose in-use flag is clear. -/
def findFreeDecoder : List Bool → Option Nat
  | [] => none
  | b :: rest =>
    if b then (findFreeDecoder rest).map (· + 1)
    else some 0

/-- The common successful tail of `startStream`: store the filename,
reset the ring buffer, mark the slot active and record the start time. -/
def finishStart (env : Env) (sys : AudioSys) (i : Nat) (s : AudioStream)
    (filename : List Nat) : AudioSys × Bool :=
  let s := { s with filename := filename, rb := s.rb.clear, active := true,
                    fileFinished := false, startTime := env.now }
  ({ sys with streams := sys.streams.set i s }, true)

/-- The WAV header parse shared by the flash and SD branches of
`startStream`: read `sizeof(WAVHeader)` = 44 bytes; if bytes 36-39 are
not `"data"` scan chunk headers from offset 12; extract `numChannels`
(offset 22) and `sampleRate` (offset 24), clamping channels to `{1,2}`.
Returns the positioned file and the two fields.  No RIFF/WAVE/PCM
marker is checked. -/
def parseWavHeader (f : FileHandle) : FileHandle × Nat × Nat :=
  let r := fileRead f 44
  let hdr := r.2
  let f :=
    if byteAt hdr 36 = 100 ∧ byteAt hdr 37 = 97 ∧ byteAt hdr 38 = 116 ∧ byteAt hdr 39 = 97 then r.1
    else scanForData (fileSeek r.1 12) (f.bytes.length + 1)
  let channels := le16 hdr 22
  let sampleRate := le32 hdr 24
  let channels := if channels < 1 ∨ 2 < channels then 2 else channels
  (f, channels, sampleRate)

/-- `startStream` from `audio_playback.cpp`: stop the occupant, pick the
storage tier by the `"/flash/"` path prefix convention and the MP3 path
by a case-insensitive `.mp3` extension, open the file (false on
failure), parse the WAV header or check out a decoder (false when the
pool is exhausted), then activate the slot.  The WAV-SD debug re-read
block leaves the SD file positioned at byte 44. -/
def startStream (env : Env) (sys : AudioSys) (idx : Int) (filename : List Nat) :
    AudioSys × Bool :=
  if idx < 0 ∨ (MAX_STREAMS : Int) ≤ idx then (sys, false)
  else
    let sys := stopStream sys idx
    let i := idx.toNat
    let s := sys.streams.getD i defaultStream
    let isFlash := startsWithBytes filename flashTag
    let isMP3 := endsWithBytes (lowerBytes filename) mp3Tag
    if isFlash then
      match env.flashFS filename with
      | none => (sys, false)
      | some bs =>
        let p := parseWavHeader { bytes := bs, pos := 0 }
        let s := { s with flashFile := some p.1, channels := p.2.1,
                          sampleRate := p.2.2, type := StreamType.wavFlash }
        finishStart env sys i s filename
    else
      match env.sdFS filename with
      | none => (sys, false)
      | some bs =>
        if isMP3 then
          match findFreeDecoder sys.decoderInUse with
          | none => (sys, false)
          | some d =>
            let sys := { sys with decoderInUse := sys.decoderInUse.set d true }
            let s := { s with sdFile := some { bytes := bs, pos := 0 },
                              decoderIndex := (d : Int), type := StreamType.mp3SD,
                              channels := 2, sampleRate := 0 }
            finishStart env sys i s filename
        else
          let p := parseWavHeader { bytes := bs, pos := 0 }
          let s := { s with sdFile := some (fileSeek p.1 44), channels := p.2.1,
                            sampleRate := p.2.2, type := StreamType.wavSD,
                            decoderIndex := -1 }
          finishStart env sys i s filename

/-- A fresh 3-slot system with an idle 2-decoder pool, as left by
`initAudioSystem`. -/
def sysFresh : AudioSys :=
  { streams := [defaultStream, defaultStream, defaultStream],
    decoderInUse := [false, false] }

/-- A system whose two MP3 decoders are both checked out. -/
def sysBusy : AudioSys :=
  { streams := [defaultStream, defaultStream, defaultStream],
    decoderInUse := [true, true] }

/-- ASCII bytes of `"bad.wav"`. -/
def badWav : List Nat := [98, 97, 100, 46, 119, 97, 118]

/-- ASCII bytes of `"/flash/x"`. -/
def flashName : List Nat := [47, 102, 108, 97, 115, 104, 47, 120]

/-- ASCII bytes of `"a.mp3"`. -/
def mp3Name : List Nat := [97, 46, 109, 112, 51]

/-- An environment where `"bad.wav"` exists on the SD card with 44 bytes
of `'A'` — a malformed WAV: no RIFF/WAVE/PCM markers and no `data`
chunk anywhere — and nothing exists on flash. -/
def envBad : Env :=
  { flashFS := fun _ => none,
    sdFS := fun n => if n = badWav then some (List.replicate 44 65) else none,
    now := 123 }

/-- An environment where `"a.mp3"` exists on the SD card. -/
def envMp3 : Env :=
  { flashFS := fun _ => none,
    sdFS := fun n => if n = mp3Name then some [1, 2, 3] else none,
    now := 5 }

/-! ## Ring-buffer theory -/

theorem sbs_pos : 0 < STREAM_BUFFER_SIZE := by decide

theorem availRW (r w : Nat) (hr : r < STREAM_BUFFER_SIZE) (hw : w < STREAM_BUFFER_SIZE) :
    (w + STREAM_BUFFER_SIZE - r) % STREAM_BUFFER_SIZE =
      if r ≤ w then w - r else w + STREAM_BUFFER_SIZE - r := by
  rcases le_or_lt r w with h | h
  · have h1 : w + STREAM_BUFFER_SIZE - r = STREAM_BUFFER_SIZE + (w - r) := by omega
    rw [if_pos h, h1, Nat.add_mod_left, Nat.mod_eq_of_lt (by omega)]
  · rw [if_neg (by omega), Nat.mod_eq_of_lt (by omega)]

theorem availableForRead_eq (rb : RingBuffer) (hA : rb.allocated = true) :
    rb.availableForRead =
      (rb.writePos + STREAM_BUFFER_SIZE - rb.readPos) % STREAM_BUFFER_SIZE := by
  unfold RingBuffer.availableForRead
  rw [if_pos hA]

theorem availableForWrite_eq (rb : RingBuffer) (hA : rb.allocated = true) :
    rb.availableForWrite =
      (STREAM_BUFFER_SIZE - 1) -
        ((rb.writePos + STREAM_BUFFER_SIZE - rb.readPos) % STREAM_BUFFER_SIZE) := by
  unfold RingBuffer.availableForWrite
  rw [if_pos hA]

theorem availableForWrite_of_read (rb : RingBuffer) (hA : rb.allocated = true) :
    rb.availableForWrite = (STREAM_BUFFER_SIZE - 1) - rb.availableForRead := by
  rw [availableForWrite_eq rb hA, availableForRead_eq rb hA]

theorem availableForRead_le (rb : RingBuffer) (hA : rb.allocated = true) :
    rb.availableForRead ≤ STREAM_BUFFER_SIZE - 1 := by
  rw [availableForRead_eq rb hA]
  have := Nat.mod_lt (rb.writePos + STREAM_BUFFER_SIZE - rb.readPos) sbs_pos
  omega

theorem avail_sum (rb : RingBuffer) (hA : rb.allocated = true) :
    rb.availableForRead + rb.availableForWrite = STREAM_BUFFER_SIZE - 1 := by
  have h := availableForRead_le rb hA
  rw [availableForRead_eq rb hA] at h ⊢
  rw [availableForWrite_eq rb hA]
  omega

theorem availSucc (r w : Nat) (hr : r < STREAM_BUFFER_SIZE) (hw : w < STREAM_BUFFER_SIZE)
    (hne : (w + 1) % STREAM_BUFFER_SIZE ≠ r) :
    ((w + 1) % STREAM_BUFFER_SIZE + STREAM_BUFFER_SIZE - r) % STREAM_BUFFER_SIZE =
      (w + STREAM_BUFFER_SIZE - r) % STREAM_BUFFER_SIZE + 1 := by
  rcases Nat.lt_or_ge (w + 1) STREAM_BUFFER_SIZE with hw1 | hw1
  · rw [Nat.mod_eq_of_lt hw1] at hne ⊢
    rw [availRW r w hr hw, availRW r (w + 1) hr hw1]
    rcases le_or_lt r w with h | h
    · rw [if_pos (show r ≤ w + 1 by omega), if_pos h]; omega
    · rw [if_neg (show ¬ r ≤ w + 1 by omega), if_neg (show ¬ r ≤ w by omega)]; omega
  · have hwS : w + 1 = STREAM_BUFFER_SIZE := by omega
    rw [hwS, Nat.mod_self] at hne ⊢
    have hr0 : r ≠ 0 := fun h => hne h.symm
    have hrw : r ≤ w := by omega
    rw [availRW r w hr hw, if_pos hrw, Nat.zero_add,
      Nat.mod_eq_of_lt (show STREAM_BUFFER_SIZE - r < STREAM_BUFFER_SIZE by omega)]
    omega

theorem availPred (r w : Nat) (hr : r < STREAM_BUFFER_SIZE) (hw : w < STREAM_BUFFER_SIZE)
    (h : 1 ≤ (w + STREAM_BUFFER_SIZE - r) % STREAM_BUFFER_SIZE) :
    (w + STREAM_BUFFER_SIZE - (r + 1) % STREAM_BUFFER_SIZE) % STREAM_BUFFER_SIZE =
      (w + STREAM_BUFFER_SIZE - r) % STREAM_BUFFER_SIZE - 1 := by
  rcases Nat.lt_or_ge (r + 1) STREAM_BUFFER_SIZE with hr1 | hr1
  · rw [Nat.mod_eq_of_lt hr1]
    rw [availRW r w hr hw] at h ⊢
    rw [availRW (r + 1) w hr1 hw]
    rcases le_or_lt r w with hle | hlt
    · rw [if_pos hle] at h ⊢
      rw [if_pos (show r + 1 ≤ w by omega)]
      omega
    · rw [if_neg (show ¬ r ≤ w by omega)] at h ⊢
      rw [if_neg (show ¬ r + 1 ≤ w by omega)]
      omega
  · have hrS : r + 1 = STREAM_BUFFER_SIZE := by omega
    rw [hrS, Nat.mod_self]
    rw [availRW r w hr hw] at h ⊢
    rcases le_or_lt r w with hle | hlt
    · rw [if_pos hle] at h
      omega
    · rw [if_neg (show ¬ r ≤ w by omega)] at h ⊢
      have h1 : w + STREAM_BUFFER_SIZE - 0 = STREAM_BUFFER_SIZE + w := by omega
      rw [h1, Nat.add_mod_left, Nat.mod_eq_of_lt hw]
      omega

theorem read_plus_avail (r w : Nat) (hr : r < STREAM_BUFFER_SIZE)
    (hw : w < STREAM_BUFFER_SIZE) :
    (r + (w + STREAM_BUFFER_SIZE - r) % STREAM_BUFFER_SIZE) % STREAM_BUFFER_SIZE = w := by
  rw [availRW r w hr hw]
  rcases le_or_lt r w with h | h
  · rw [if_pos h, Nat.mod_eq_of_lt (by omega)]; omega
  · rw [if_neg (by omega)]
    have h1 : r + (w + STREAM_BUFFER_SIZE - r) = STREAM_BUFFER_SIZE + w := by omega
    rw [h1, Nat.add_mod_left, Nat.mod_eq_of_lt hw]

theorem read_plus_lt_ne (r w i : Nat) (hr : r < STREAM_BUFFER_SIZE)
    (hw : w < STREAM_BUFFER_SIZE)
    (hi : i < (w + STREAM_BUFFER_SIZE - r) % STREAM_BUFFER_SIZE) :
    (r + i) % STREAM_BUFFER_SIZE ≠ w := by
  rw [availRW r w hr hw] at hi
  rcases le_or_lt r w with h | h
  · rw [if_pos h] at hi
    rw [Nat.mod_eq_of_lt (by omega)]
    omega
  · rw [if_neg (by omega)] at hi
    rcases Nat.lt_or_ge (r + i) STREAM_BUFFER_SIZE with h2 | h2
    · rw [Nat.mod_eq_of_lt h2]; omega
    · have h3 : r + i = STREAM_BUFFER_SIZE + (r + i - STREAM_BUFFER_SIZE) := by omega
      rw [h3, Nat.add_mod_left, Nat.mod_eq_of_lt (by omega)]
      omega

theorem mk_availableForRead (a : Bool) (d : Nat → Int) (r w : Nat) (ha : a = true) :
    (RingBuffer.mk a d r w).availableForRead = (w + STREAM_BUFFER_SIZE - r) % STREAM_BUFFER_SIZE := by
  subst ha
  unfold RingBuffer.availableForRead
  rw [if_pos rfl]

theorem mk_contents (a : Bool) (d : Nat → Int) (r w : Nat) (ha : a = true) :
    (RingBuffer.mk a d r w).contents =
      (List.range ((w + STREAM_BUFFER_SIZE - r) % STREAM_BUFFER_SIZE)).map
        (fun i => d ((r + i) % STREAM_BUFFER_SIZE)) := by
  unfold RingBuffer.contents
  rw [mk_availableForRead a d r w ha]

theorem push_spec (rb : RingBuffer) (s : Int) (hA : rb.allocated = true) (hwf : rb.wf)
    (h : 1 ≤ rb.availableForWrite) :
    (rb.push s).2 = true ∧
    (rb.push s).1.allocated = true ∧
    (rb.push s).1.wf ∧
    (rb.push s).1.readPos = rb.readPos ∧
    (rb.push s).1.availableForRead = rb.availableForRead + 1 ∧
    (rb.push s).1.availableForWrite = rb.availableForWrite - 1 ∧
    (rb.push s).1.contents = rb.contents ++ [s] := by
  obtain ⟨hr, hw⟩ := hwf
  have hS := sbs_pos
  have hguard : (rb.writePos + 1) % STREAM_BUFFER_SIZE ≠ rb.readPos := by
    intro hEq
    rw [availableForWrite_eq rb hA, availRW rb.readPos rb.writePos hr hw] at h
    rcases Nat.lt_or_ge (rb.writePos + 1) STREAM_BUFFER_SIZE with h1 | h1
    · rw [Nat.mod_eq_of_lt h1] at hEq
      rcases le_or_lt rb.readPos rb.writePos with h2 | h2
      · rw [if_pos h2] at h; omega
      · rw [if_neg (Nat.not_le.mpr h2)] at h; omega
    · have h2 : rb.writePos + 1 = STREAM_BUFFER_SIZE := by omega
      rw [h2, Nat.mod_self] at hEq
      rw [if_pos (show rb.readPos ≤ rb.writePos by omega)] at h
      omega
  have hpush : rb.push s =
      ({ rb with data := fun j => if j = rb.writePos then s else rb.data j,
                 writePos := (rb.writePos + 1) % STREAM_BUFFER_SIZE }, true) := by
    unfold RingBuffer.push
    rw [if_pos hA, if_neg hguard]
  rw [hpush]
  have hsucc := availSucc rb.readPos rb.writePos hr hw hguard
  have hAr' : (RingBuffer.mk rb.allocated
      (fun j => if j = rb.writePos then s else rb.data j) rb.readPos
      ((rb.writePos + 1) % STREAM_BUFFER_SIZE)).availableForRead =
      rb.availableForRead + 1 := by
    rw [mk_availableForRead _ _ _ _ hA, availableForRead_eq rb hA]
    exact hsucc
  refine ⟨rfl, hA, ⟨hr, Nat.mod_lt _ hS⟩, rfl, hAr', ?_, ?_⟩
  · dsimp only
    have hAlit : (RingBuffer.mk rb.allocated
        (fun j => if j = rb.writePos then s else rb.data j) rb.readPos
        ((rb.writePos + 1) % STREAM_BUFFER_SIZE)).allocated = true := hA
    rw [availableForWrite_of_read _ hAlit, availableForWrite_of_read rb hA, hAr']
    have := availableForRead_le rb hA
    omega
  · dsimp only
    rw [mk_contents _ _ _ _ hA]
    unfold RingBuffer.contents
    rw [availableForRead_eq rb hA]
    rw [hsucc, List.range_succ, List.map_append]
    congr 1
    · apply List.map_congr_left
      intro i hi
      rw [List.mem_range] at hi
      dsimp only
      rw [if_neg (read_plus_lt_ne rb.readPos rb.writePos i hr hw hi)]
    · rw [List.map_cons, List.map_nil,
        read_plus_avail rb.readPos rb.writePos hr hw, if_pos rfl]

theorem pop_spec (rb : RingBuffer) (hA : rb.allocated = true) (hwf : rb.wf)
    (h : 1 ≤ rb.availableForRead) :
    (rb.pop).2 = rb.contents.headD 0 ∧
    (rb.pop).1.contents = rb.contents.tail ∧
    (rb.pop).1.allocated = true ∧
    (rb.pop).1.wf ∧
    (rb.pop).1.availableForRead = rb.availableForRead - 1 ∧
    (rb.pop).1.writePos = rb.writePos := by
  obtain ⟨hr, hw⟩ := hwf
  have hS := sbs_pos
  have hpop : rb.pop =
      ({ rb with readPos := (rb.readPos + 1) % STREAM_BUFFER_SIZE }, rb.data rb.readPos) := by
    unfold RingBuffer.pop
    rw [if_pos hA]
  obtain ⟨k, hk⟩ : ∃ k, rb.availableForRead = k + 1 := ⟨rb.availableForRead - 1, by omega⟩
  have hcont : rb.contents = rb.data rb.readPos ::
      (List.range k).map (fun i => rb.data ((rb.readPos + (i + 1)) % STREAM_BUFFER_SIZE)) := by
    unfold RingBuffer.contents
    rw [hk, List.range_succ_eq_map, List.map_cons, List.map_map]
    simp only [Function.comp_def, Nat.succ_eq_add_one]
    rw [Nat.add_zero, Nat.mod_eq_of_lt hr]
  have hpred : ((rb.writePos + STREAM_BUFFER_SIZE - (rb.readPos + 1) % STREAM_BUFFER_SIZE) %
      STREAM_BUFFER_SIZE) = rb.availableForRead - 1 := by
    rw [availableForRead_eq rb hA]
    refine availPred rb.readPos rb.writePos hr hw ?_
    rw [← availableForRead_eq rb hA]
    omega
  rw [hpop]
  refine ⟨?_, ?_, hA, ⟨Nat.mod_lt _ hS, hw⟩, ?_, rfl⟩
  · rw [hcont]
    rfl
  · rw [hcont]
    dsimp only
    rw [mk_contents _ _ _ _ hA]
    rw [hpred, hk]
    simp only [Nat.add_sub_cancel, List.tail_cons]
    apply List.map_congr_left
    intro i _
    rw [Nat.mod_add_mod]
    congr 2
    omega
  · dsimp only
    rw [mk_availableForRead _ _ _ _ hA]
    exact hpred

theorem push_allocated (rb : RingBuffer) (v : Int) :
    (rb.push v).1.allocated = rb.allocated := by
  unfold RingBuffer.push
  split
  · dsimp only
    split
    · rfl
    · rfl
  · rfl

theorem pop_allocated (rb : RingBuffer) : rb.pop.1.allocated = rb.allocated := by
  unfold RingBuffer.pop
  split
  · rfl
  · rfl

theorem runRing_allocated : ∀ (ops : List BufOp) (rb : RingBuffer),
    (runRing rb ops).1.allocated = rb.allocated := by
  intro ops
  induction ops with
  | nil => intro rb; rfl
  | cons op ops ih =>
    intro rb
    cases op with
    | push v =>
      have h : (runRing rb (BufOp.push v :: ops)).1 = (runRing (rb.push v).1 ops).1 := rfl
      rw [h, ih, push_allocated]
    | pop =>
      have h : (runRing rb (BufOp.pop :: ops)).1 = (runRing rb.pop.1 ops).1 := rfl
      rw [h, ih, pop_allocated]

theorem runRing_refines : ∀ (ops : List BufOp) (rb : RingBuffer),
    rb.allocated = true → rb.wf → legalRun rb ops = true →
    (runRing rb ops).1.allocated = true ∧ (runRing rb ops).1.wf ∧
    (runRing rb ops).1.contents = (runQueue rb.contents ops).1 ∧
    (runRing rb ops).2 = (runQueue rb.contents ops).2 := by
  intro ops
  induction ops with
  | nil => intro rb hA hwf _; exact ⟨hA, hwf, rfl, rfl⟩
  | cons op ops ih =>
    intro rb hA hwf hleg
    cases op with
    | push v =>
      have hleg' : (decide (1 ≤ rb.availableForWrite) &&
          legalRun (rb.push v).1 ops) = true := hleg
      rw [Bool.and_eq_true, decide_eq_true_eq] at hleg'
      obtain ⟨hav, hlegs⟩ := hleg'
      obtain ⟨-, hA', hwf', -, -, -, hcont'⟩ := push_spec rb v hA hwf hav
      obtain ⟨ihA, ihwf, ihc, iho⟩ := ih (rb.push v).1 hA' hwf' hlegs
      refine ⟨ihA, ihwf, ?_, ?_⟩
      · show (runRing (rb.push v).1 ops).1.contents = (runQueue (rb.contents ++ [v]) ops).1
        rw [ihc, hcont']
      · show (runRing (rb.push v).1 ops).2 = (runQueue (rb.contents ++ [v]) ops).2
        rw [iho, hcont']
    | pop =>
      have hleg' : (decide (1 ≤ rb.availableForRead) &&
          legalRun rb.pop.1 ops) = true := hleg
      rw [Bool.and_eq_true, decide_eq_true_eq] at hleg'
      obtain ⟨hav, hlegs⟩ := hleg'
      obtain ⟨hval, hcont', hA', hwf', -, -⟩ := pop_spec rb hA hwf hav
      obtain ⟨ihA, ihwf, ihc, iho⟩ := ih rb.pop.1 hA' hwf' hlegs
      refine ⟨ihA, ihwf, ?_, ?_⟩
      · show ((runRing rb.pop.1 ops).1, _).1.contents = (runQueue rb.contents.tail ops).1
        rw [ihc, hcont']
      · show rb.pop.2 :: (runRing rb.pop.1 ops).2 =
          rb.contents.headD 0 :: (runQueue rb.contents.tail ops).2
        rw [iho, hcont', hval]

/-- C1: for every legal history of `push`/`pop` operations (pops only
with `availableForRead() >= 1`, pushes only with
`availableForWrite() >= 1`) on an allocated ring buffer, the popped
samples are exactly those of an ideal FIFO queue holding the buffered
samples, and after every prefix of the history
`availableForRead() + availableForWrite()` equals
`STREAM_BUFFER_SIZE - 1`. -/
theorem ringBuffer_fifo_and_conservation (rb : RingBuffer) (ops : List BufOp)
    (hA : rb.allocated = true) (hwf : rb.wf) (hleg : legalRun rb ops = true) :
    (runRing rb ops).2 = (runQueue rb.contents ops).2 ∧
    ∀ k, (runRing rb (ops.take k)).1.availableForRead +
        (runRing rb (ops.take k)).1.availableForWrite = STREAM_BUFFER_SIZE - 1 := by
  refine ⟨(runRing_refines ops rb hA hwf hleg).2.2.2, ?_⟩
  intro k
  apply avail_sum
  rw [runRing_allocated (ops.take k) rb]
  exact hA

/-- Witness for C1: a concrete legal history on the empty buffer pops
`[5, 7]`, exactly the FIFO order of the pushes. -/
theorem ringBuffer_fifo_and_conservation_witness :
    (runRing rbEmpty [BufOp.push 5, BufOp.push 7, BufOp.pop, BufOp.pop]).2 =
      (runQueue rbEmpty.contents [BufOp.push 5, BufOp.push 7, BufOp.pop, BufOp.pop]).2 :=
  (ringBuffer_fifo_and_conservation rbEmpty
    [BufOp.push 5, BufOp.push 7, BufOp.pop, BufOp.pop] rfl (by decide) (by decide)).1

/-- C9: on an allocated buffer, `pop()` advances `readPos` by one modulo
`STREAM_BUFFER_SIZE` even when `availableForRead() == 0`, returning the
stale sample stored at `readPos`, and the next `availableForRead()`
reports `STREAM_BUFFER_SIZE - 1`. -/
theorem pop_empty_behavior (rb : RingBuffer) (hA : rb.allocated = true) (hwf : rb.wf)
    (h0 : rb.availableForRead = 0) :
    rb.pop = ({ rb with readPos := (rb.readPos + 1) % STREAM_BUFFER_SIZE },
      rb.data rb.readPos) ∧
    (rb.pop).1.availableForRead = STREAM_BUFFER_SIZE - 1 := by
  obtain ⟨hr, hw⟩ := hwf
  have hS := sbs_pos
  have hpop : rb.pop =
      ({ rb with readPos := (rb.readPos + 1) % STREAM_BUFFER_SIZE }, rb.data rb.readPos) := by
    unfold RingBuffer.pop
    rw [if_pos hA]
  have hrw : rb.writePos = rb.readPos := by
    rw [availableForRead_eq rb hA, availRW rb.readPos rb.writePos hr hw] at h0
    rcases le_or_lt rb.readPos rb.writePos with hle | hlt
    · rw [if_pos hle] at h0; omega
    · rw [if_neg (show ¬ rb.readPos ≤ rb.writePos by omega)] at h0; omega
  refine ⟨hpop, ?_⟩
  rw [hpop]
  dsimp only
  rw [mk_availableForRead _ _ _ _ hA, hrw]
  rcases Nat.lt_or_ge (rb.readPos + 1) STREAM_BUFFER_SIZE with h1 | h1
  · rw [Nat.mod_eq_of_lt h1, Nat.mod_eq_of_lt (show rb.readPos + STREAM_BUFFER_SIZE -
      (rb.readPos + 1) < STREAM_BUFFER_SIZE by omega)]
    omega
  · have h2 : rb.readPos + 1 = STREAM_BUFFER_SIZE := by omega
    rw [h2, Nat.mod_self]
    have h3 : rb.readPos + STREAM_BUFFER_SIZE - 0 = STREAM_BUFFER_SIZE + rb.readPos := by omega
    rw [h3, Nat.add_mod_left, Nat.mod_eq_of_lt hr]
    omega

/-! ### Normalization-path lemmas (C2) -/

theorem wavFill44_mono_spec : ∀ (pcm : List Int) (rb : RingBuffer),
    rb.allocated = true → rb.wf → 2 * pcm.length ≤ rb.availableForWrite →
    (wavFill44 1 rb pcm).allocated = true ∧ (wavFill44 1 rb pcm).wf ∧
    (wavFill44 1 rb pcm).availableForRead = rb.availableForRead + 2 * pcm.length ∧
    (wavFill44 1 rb pcm).availableForWrite = rb.availableForWrite - 2 * pcm.length ∧
    (wavFill44 1 rb pcm).contents = rb.contents ++ mono44Expand pcm := by
  intro pcm
  induction pcm with
  | nil =>
    intro rb hA hwf _
    exact ⟨hA, hwf, by simp [wavFill44], by simp [wavFill44], by simp [wavFill44, mono44Expand]⟩
  | cons s rest ih =>
    intro rb hA hwf hav
    simp only [List.length_cons] at hav
    obtain ⟨h1t, h1A, h1wf, -, h1r, h1w, h1c⟩ := push_spec rb s hA hwf (by omega)
    obtain ⟨h2t, h2A, h2wf, -, h2r, h2w, h2c⟩ :=
      push_spec (rb.push s).1 s h1A h1wf (by rw [h1w]; omega)
    have hstep : wavFill44 1 rb (s :: rest) = wavFill44 1 ((rb.push s).1.push s).1 rest :=
      if_pos rfl
    rw [hstep]
    obtain ⟨ihA, ihwf, ihr, ihw, ihc⟩ := ih ((rb.push s).1.push s).1 h2A h2wf
      (by rw [h2w, h1w]; omega)
    refine ⟨ihA, ihwf, ?_, ?_, ?_⟩
    · rw [ihr, h2r, h1r]; simp only [List.length_cons]; omega
    · rw [ihw, h2w, h1w]; simp only [List.length_cons]; omega
    · rw [ihc, h2c, h1c]
      show _ = rb.contents ++ (s :: s :: mono44Expand rest)
      simp [List.append_assoc]

theorem mp3Fill44_mono_spec : ∀ (pcm : List Int) (rb : RingBuffer),
    rb.allocated = true → rb.wf → 2 * pcm.length ≤ rb.availableForWrite →
    (mp3Fill44 1 rb pcm).allocated = true ∧ (mp3Fill44 1 rb pcm).wf ∧
    (mp3Fill44 1 rb pcm).availableForRead = rb.availableForRead + 2 * pcm.length ∧
    (mp3Fill44 1 rb pcm).availableForWrite = rb.availableForWrite - 2 * pcm.length ∧
    (mp3Fill44 1 rb pcm).contents = rb.contents ++ mono44Expand pcm := by
  intro pcm
  induction pcm with
  | nil =>
    intro rb hA hwf _
    exact ⟨hA, hwf, by simp [mp3Fill44], by simp [mp3Fill44], by simp [mp3Fill44, mono44Expand]⟩
  | cons s rest ih =>
    intro rb hA hwf hav
    simp only [List.length_cons] at hav
    obtain ⟨h1t, h1A, h1wf, -, h1r, h1w, h1c⟩ := push_spec rb s hA hwf (by omega)
    obtain ⟨h2t, h2A, h2wf, -, h2r, h2w, h2c⟩ :=
      push_spec (rb.push s).1 s h1A h1wf (by rw [h1w]; omega)
    have hstep : mp3Fill44 1 rb (s :: rest) = mp3Fill44 1 ((rb.push s).1.push s).1 rest := by
      simp only [mp3Fill44, h1t, h2t, Bool.not_true, Bool.false_eq_true, if_false, if_true]
    rw [hstep]
    obtain ⟨ihA, ihwf, ihr, ihw, ihc⟩ := ih ((rb.push s).1.push s).1 h2A h2wf
      (by rw [h2w, h1w]; omega)
    refine ⟨ihA, ihwf, ?_, ?_, ?_⟩
    · rw [ihr, h2r, h1r]; simp only [List.length_cons]; omega
    · rw [ihw, h2w, h1w]; simp only [List.length_cons]; omega
    · rw [ihc, h2c, h1c]
      show _ = rb.contents ++ (s :: s :: mono44Expand rest)
      simp [List.append_assoc]

theorem fill22Mono_spec : ∀ (pcm : List Int) (rb : RingBuffer),
    rb.allocated = true → rb.wf → 4 * pcm.length ≤ rb.availableForWrite →
    (fill22Mono rb pcm).allocated = true ∧ (fill22Mono rb pcm).wf ∧
    (fill22Mono rb pcm).availableForRead = rb.availableForRead + 4 * pcm.length ∧
    (fill22Mono rb pcm).availableForWrite = rb.availableForWrite - 4 * pcm.length ∧
    (fill22Mono rb pcm).contents = rb.contents ++ mono22Expand pcm := by
  intro pcm
  induction pcm with
  | nil =>
    intro rb hA hwf _
    exact ⟨hA, hwf, by simp [fill22Mono], by simp [fill22Mono], by simp [fill22Mono, mono22Expand]⟩
  | cons s rest ih =>
    intro rb hA hwf hav
    simp only [List.length_cons] at hav
    obtain ⟨h1t, h1A, h1wf, -, h1r, h1w, h1c⟩ := push_spec rb s hA hwf (by omega)
    obtain ⟨h2t, h2A, h2wf, -, h2r, h2w, h2c⟩ :=
      push_spec (rb.push s).1 s h1A h1wf (by rw [h1w]; omega)
    obtain ⟨h3t, h3A, h3wf, -, h3r, h3w, h3c⟩ :=
      push_spec ((rb.push s).1.push s).1 s h2A h2wf (by rw [h2w, h1w]; omega)
    obtain ⟨h4t, h4A, h4wf, -, h4r, h4w, h4c⟩ :=
      push_spec (((rb.push s).1.push s).1.push s).1 s h3A h3wf
        (by rw [h3w, h2w, h1w]; omega)
    have hstep : fill22Mono rb (s :: rest) =
        fill22Mono ((((rb.push s).1.push s).1.push s).1.push s).1 rest := by
      simp only [fill22Mono, h1t, h2t, h3t, h4t, Bool.not_true, Bool.false_eq_true, if_false, if_true]
    rw [hstep]
    obtain ⟨ihA, ihwf, ihr, ihw, ihc⟩ :=
      ih ((((rb.push s).1.push s).1.push s).1.push s).1 h4A h4wf
        (by rw [h4w, h3w, h2w, h1w]; omega)
    refine ⟨ihA, ihwf, ?_, ?_, ?_⟩
    · rw [ihr, h4r, h3r, h2r, h1r]; simp only [List.length_cons]; omega
    · rw [ihw, h4w, h3w, h2w, h1w]; simp only [List.length_cons]; omega
    · rw [ihc, h4c, h3c, h2c, h1c]
      show _ = rb.contents ++ (s :: s :: s :: s :: mono22Expand rest)
      simp [List.append_assoc]

theorem fill22Stereo_spec : ∀ (n : Nat) (pcm : List Int) (rb : RingBuffer),
    pcm.length = 2 * n →
    rb.allocated = true → rb.wf → 2 * pcm.length ≤ rb.availableForWrite →
    (fill22Stereo rb pcm).allocated = true ∧ (fill22Stereo rb pcm).wf ∧
    (fill22Stereo rb pcm).availableForRead = rb.availableForRead + 4 * n ∧
    (fill22Stereo rb pcm).availableForWrite = rb.availableForWrite - 4 * n ∧
    (fill22Stereo rb pcm).contents = rb.contents ++ stereo22Expand pcm := by
  intro n
  induction n with
  | zero =>
    intro pcm rb hlen hA hwf _
    have hnil : pcm = [] := List.eq_nil_of_length_eq_zero (by omega)
    subst hnil
    exact ⟨hA, hwf, by simp [fill22Stereo], by simp [fill22Stereo],
      by simp [fill22Stereo, stereo22Expand]⟩
  | succ n ih =>
    intro pcm rb hlen hA hwf hav
    match pcm, hlen with
    | l :: r :: rest, hlen =>
      simp only [List.length_cons] at hlen hav
      have hrlen : rest.length = 2 * n := by omega
      obtain ⟨h1t, h1A, h1wf, -, h1r, h1w, h1c⟩ := push_spec rb l hA hwf (by omega)
      obtain ⟨h2t, h2A, h2wf, -, h2r, h2w, h2c⟩ :=
        push_spec (rb.push l).1 r h1A h1wf (by rw [h1w]; omega)
      obtain ⟨h3t, h3A, h3wf, -, h3r, h3w, h3c⟩ :=
        push_spec ((rb.push l).1.push r).1 l h2A h2wf (by rw [h2w, h1w]; omega)
      obtain ⟨h4t, h4A, h4wf, -, h4r, h4w, h4c⟩ :=
        push_spec (((rb.push l).1.push r).1.push l).1 r h3A h3wf
          (by rw [h3w, h2w, h1w]; omega)
      have hstep : fill22Stereo rb (l :: r :: rest) =
          fill22Stereo ((((rb.push l).1.push r).1.push l).1.push r).1 rest := by
        simp only [fill22Stereo, h1t, h2t, h3t, h4t, Bool.not_true, Bool.false_eq_true, if_false, if_true]
      rw [hstep]
      obtain ⟨ihA, ihwf, ihr, ihw, ihc⟩ :=
        ih rest ((((rb.push l).1.push r).1.push l).1.push r).1 hrlen h4A h4wf
          (by rw [h4w, h3w, h2w, h1w]; omega)
      refine ⟨ihA, ihwf, ?_, ?_, ?_⟩
      · rw [ihr, h4r, h3r, h2r, h1r]; omega
      · rw [ihw, h4w, h3w, h2w, h1w]; omega
      · rw [ihc, h4c, h3c, h2c, h1c]
        show _ = rb.contents ++ (l :: r :: l :: r :: stereo22Expand rest)
        simp [List.append_assoc]

/-- C2: with sufficient free buffer space (no push fails), a mono
44.1 kHz input of N samples pushes exactly 2N samples (each duplicated
L,R), a stereo 22.05 kHz input of N frames pushes exactly 4N samples
(each frame pushed twice), and a mono 22.05 kHz input of N samples
pushes exactly 4N samples (each pushed as L,R,L,R) — identically in the
raw-WAV chunk path of `fillStreamBuffers` and in `mp3DataCallback`. -/
theorem normalization_counts (rb : RingBuffer) (hA : rb.allocated = true) (hwf : rb.wf) :
    (∀ bytes, 2 * (pairBytes bytes).length ≤ rb.availableForWrite →
      (fillStreamBuffersWavChunk 1 44100 rb bytes).availableForRead =
        rb.availableForRead + 2 * (pairBytes bytes).length ∧
      (fillStreamBuffersWavChunk 1 44100 rb bytes).contents =
        rb.contents ++ mono44Expand (pairBytes bytes)) ∧
    (∀ bytes n, (pairBytes bytes).length = 2 * n →
      2 * (pairBytes bytes).length ≤ rb.availableForWrite →
      (fillStreamBuffersWavChunk 2 22050 rb bytes).availableForRead =
        rb.availableForRead + 4 * n ∧
      (fillStreamBuffersWavChunk 2 22050 rb bytes).contents =
        rb.contents ++ stereo22Expand (pairBytes bytes)) ∧
    (∀ bytes, 4 * (pairBytes bytes).length ≤ rb.availableForWrite →
      (fillStreamBuffersWavChunk 1 22050 rb bytes).availableForRead =
        rb.availableForRead + 4 * (pairBytes bytes).length ∧
      (fillStreamBuffersWavChunk 1 22050 rb bytes).contents =
        rb.contents ++ mono22Expand (pairBytes bytes)) ∧
    (∀ pcm : List Int, 2 * pcm.length ≤ rb.availableForWrite →
      (mp3DataCallback 1 44100 rb pcm).availableForRead =
        rb.availableForRead + 2 * pcm.length ∧
      (mp3DataCallback 1 44100 rb pcm).contents = rb.contents ++ mono44Expand pcm) ∧
    (∀ (pcm : List Int) n, pcm.length = 2 * n →
      2 * pcm.length ≤ rb.availableForWrite →
      (mp3DataCallback 2 22050 rb pcm).availableForRead = rb.availableForRead + 4 * n ∧
      (mp3DataCallback 2 22050 rb pcm).contents = rb.contents ++ stereo22Expand pcm) ∧
    (∀ pcm : List Int, 4 * pcm.length ≤ rb.availableForWrite →
      (mp3DataCallback 1 22050 rb pcm).availableForRead =
        rb.availableForRead + 4 * pcm.length ∧
      (mp3DataCallback 1 22050 rb pcm).contents = rb.contents ++ mono22Expand pcm) := by
  refine ⟨?_, ?_, ?_, ?_, ?_, ?_⟩
  · intro bytes hav
    have h := wavFill44_mono_spec (pairBytes bytes) rb hA hwf hav
    exact ⟨h.2.2.1, h.2.2.2.2⟩
  · intro bytes n hlen hav
    have h := fill22Stereo_spec n (pairBytes bytes) rb hlen hA hwf hav
    exact ⟨h.2.2.1, h.2.2.2.2⟩
  · intro bytes hav
    have h := fill22Mono_spec (pairBytes bytes) rb hA hwf hav
    exact ⟨h.2.2.1, h.2.2.2.2⟩
  · intro pcm hav
    have h := mp3Fill44_mono_spec pcm rb hA hwf hav
    exact ⟨h.2.2.1, h.2.2.2.2⟩
  · intro pcm n hlen hav
    have h := fill22Stereo_spec n pcm rb hlen hA hwf hav
    exact ⟨h.2.2.1, h.2.2.2.2⟩
  · intro pcm hav
    have h := fill22Mono_spec pcm rb hA hwf hav
    exact ⟨h.2.2.1, h.2.2.2.2⟩

/-- Witness for C2: a 4-byte mono 22.05 kHz chunk (2 samples) pushes
exactly 8 samples into the empty buffer. -/
theorem normalization_counts_witness :
    (fillStreamBuffersWavChunk 1 22050 rbEmpty [1, 0, 2, 0]).availableForRead =
      rbEmpty.availableForRead + 4 * (pairBytes [1, 0, 2, 0]).length :=
  ((normalization_counts rbEmpty rfl (by decide)).2.2.1 [1, 0, 2, 0] (by decide)).1

/-! ### Chirp tone-generator lemmas (C5, C6) -/

theorem chirpRun_succ (c : ChirpState) (k : Nat) :
    chirpRun c (k + 1) = chirpRun (chirpToneStep c).1 k := rfl

theorem chirpRun_succ' (c : ChirpState) : ∀ k,
    chirpRun c (k + 1) = (chirpToneStep (chirpRun c k)).1 := by
  intro k
  induction k generalizing c with
  | zero => rfl
  | succ k ih => rw [chirpRun_succ, ih, chirpRun_succ]

theorem chirpRun_add (c : ChirpState) : ∀ a b,
    chirpRun c (a + b) = chirpRun (chirpRun c a) b := by
  intro a
  induction a generalizing c with
  | zero => intro b; rw [Nat.zero_add]; rfl
  | succ a ih =>
    intro b
    have h1 : a + 1 + b = (a + b) + 1 := by omega
    rw [h1, chirpRun_succ, chirpRun_succ, ih]

theorem chirpToneStep_fields (c : ChirpState) :
    (chirpToneStep c).1.targetInc = c.targetInc ∧
    (chirpToneStep c).1.sweepStep = c.sweepStep ∧
    (chirpToneStep c).1.volume = c.volume := by
  unfold chirpToneStep
  split
  · split
    · exact ⟨rfl, rfl, rfl⟩
    · exact ⟨rfl, rfl, rfl⟩
  · exact ⟨rfl, rfl, rfl⟩

theorem chirp_step_up (c : ChirpState) (hle : c.phaseInc ≤ c.targetInc)
    (hs : 0 ≤ c.sweepStep) (hsb : c.sweepStep ≤ 2 ^ 31) (ht : c.targetInc < 2 ^ 31) :
    c.phaseInc ≤ (chirpToneStep c).1.phaseInc ∧
    (chirpToneStep c).1.phaseInc ≤ c.targetInc := by
  unfold chirpToneStep
  split
  · split
    · dsimp only
      split
      · have hconv : Int.emod ((c.phaseInc : Int) + c.sweepStep) (U32 : Int) =
            ((c.phaseInc : Int) + c.sweepStep) % (4294967296 : Int) := rfl
        have hkey : (Int.emod ((c.phaseInc : Int) + c.sweepStep) (U32 : Int)).toNat =
            c.phaseInc + c.sweepStep.toNat := by
          rw [hconv]; omega
        rw [hkey]
        by_cases h1 : 0 < c.sweepStep ∧ c.targetInc < c.phaseInc + c.sweepStep.toNat
        · rw [if_pos h1]
          by_cases h2 : c.sweepStep < 0 ∧ c.targetInc < c.targetInc
          · rw [if_pos h2]; omega
          · rw [if_neg h2]; omega
        · rw [if_neg h1]
          by_cases h2 : c.sweepStep < 0 ∧ c.phaseInc + c.sweepStep.toNat < c.targetInc
          · rw [if_pos h2]; omega
          · rw [if_neg h2]; omega
      · exact ⟨le_refl _, hle⟩
    · exact ⟨le_refl _, hle⟩
  · exact ⟨le_refl _, hle⟩

theorem chirp_step_down (c : ChirpState) (hge : c.targetInc ≤ c.phaseInc)
    (hs : c.sweepStep ≤ 0) (hsb : -(2 ^ 31 : Int) ≤ c.sweepStep)
    (ht : c.targetInc < 2 ^ 31) (hp : c.phaseInc < U32) :
    c.targetInc ≤ (chirpToneStep c).1.phaseInc ∧
    (chirpToneStep c).1.phaseInc < U32 := by
  have hUnat : U32 = 4294967296 := rfl
  rw [hUnat] at hp ⊢
  unfold chirpToneStep
  split
  · split
    · dsimp only
      split
      · have hconv : Int.emod ((c.phaseInc : Int) + c.sweepStep) (U32 : Int) =
            ((c.phaseInc : Int) + c.sweepStep) % (4294967296 : Int) := rfl
        rw [hconv]
        by_cases h1 : 0 < c.sweepStep ∧ c.targetInc <
            (((c.phaseInc : Int) + c.sweepStep) % (4294967296 : Int)).toNat
        · rw [if_pos h1]
          by_cases h2 : c.sweepStep < 0 ∧ c.targetInc < c.targetInc
          · rw [if_pos h2]; omega
          · rw [if_neg h2]; omega
        · rw [if_neg h1]
          by_cases h2 : c.sweepStep < 0 ∧
              (((c.phaseInc : Int) + c.sweepStep) % (4294967296 : Int)).toNat < c.targetInc
          · rw [if_pos h2]; omega
          · rw [if_neg h2]; omega
      · exact ⟨hge, hp⟩
    · exact ⟨hge, hp⟩
  · exact ⟨hge, hp⟩

theorem chirpRun_up_inv (c : ChirpState) (hle : c.phaseInc ≤ c.targetInc)
    (hs : 0 ≤ c.sweepStep) (hsb : c.sweepStep ≤ 2 ^ 31) (ht : c.targetInc < 2 ^ 31) :
    ∀ k, (chirpRun c k).targetInc = c.targetInc ∧
      (chirpRun c k).sweepStep = c.sweepStep ∧
      (chirpRun c k).phaseInc ≤ c.targetInc ∧
      c.phaseInc ≤ (chirpRun c k).phaseInc ∧
      (chirpRun c k).phaseInc ≤ (chirpRun c (k + 1)).phaseInc := by
  intro k
  induction k with
  | zero =>
    exact ⟨rfl, rfl, hle, le_refl _, (chirp_step_up c hle hs hsb ht).1⟩
  | succ k ih =>
    obtain ⟨iht, ihs, ihp, ihst, ihm⟩ := ih
    have hstep := chirp_step_up (chirpRun c k)
      (by rw [iht]; exact ihp) (by rw [ihs]; exact hs)
      (by rw [ihs]; exact hsb) (by rw [iht]; exact ht)
    have hf := chirpToneStep_fields (chirpRun c k)
    have ht1 : (chirpRun c (k + 1)).targetInc = c.targetInc := by
      rw [chirpRun_succ', hf.1, iht]
    have hs1 : (chirpRun c (k + 1)).sweepStep = c.sweepStep := by
      rw [chirpRun_succ', hf.2.1, ihs]
    have hp1 : (chirpRun c (k + 1)).phaseInc ≤ c.targetInc := by
      rw [chirpRun_succ']
      exact le_trans hstep.2 (le_of_eq iht)
    refine ⟨ht1, hs1, hp1, le_trans ihst ihm, ?_⟩
    have hstep1 := chirp_step_up (chirpRun c (k + 1))
      (by rw [ht1]; exact hp1) (by rw [hs1]; exact hs)
      (by rw [hs1]; exact hsb) (by rw [ht1]; exact ht)
    rw [show chirpRun c (k + 1 + 1) = (chirpToneStep (chirpRun c (k + 1))).1 from
      chirpRun_succ' c (k + 1)]
    exact hstep1.1

theorem chirpRun_down_inv (c : ChirpState) (hge : c.targetInc ≤ c.phaseInc)
    (hs : c.sweepStep ≤ 0) (hsb : -(2 ^ 31 : Int) ≤ c.sweepStep)
    (ht : c.targetInc < 2 ^ 31) (hp : c.phaseInc < U32) :
    ∀ k, (chirpRun c k).targetInc = c.targetInc ∧
      (chirpRun c k).sweepStep = c.sweepStep ∧
      c.targetInc ≤ (chirpRun c k).phaseInc ∧
      (chirpRun c k).phaseInc < U32 := by
  intro k
  induction k with
  | zero => exact ⟨rfl, rfl, hge, hp⟩
  | succ k ih =>
    obtain ⟨iht, ihs, ihp, ihb⟩ := ih
    have hstep := chirp_step_down (chirpRun c k)
      (by rw [iht]; exact ihp) (by rw [ihs]; exact hs)
      (by rw [ihs]; exact hsb) (by rw [iht]; exact ht) ihb
    have hf := chirpToneStep_fields (chirpRun c k)
    refine ⟨?_, ?_, ?_, ?_⟩
    · rw [chirpRun_succ', hf.1, iht]
    · rw [chirpRun_succ', hf.2.1, ihs]
    · rw [chirpRun_succ']
      exact le_trans (le_of_eq iht.symm) hstep.1
    · rw [chirpRun_succ']
      exact hstep.2

/-- C5: for a chirp armed by `playChirp` with an upward sweep
(`startFreq <= endFreq`, end frequency below the Nyquist bound so the
target increment is representable), the phase increment is monotonically
non-decreasing across mixer steps, starts at the start-frequency
increment, and never exceeds the target increment at any step;
symmetrically, for a downward sweep it never undershoots the target
increment. -/
theorem chirp_sweep_no_overshoot (c0 : ChirpState) (sf ef d vol : Nat)
    (hd : 0 < d) (hef : ef < 22050) :
    (sf ≤ ef → ∀ k,
      (chirpRun (playChirp c0 sf ef d vol) k).phaseInc ≤
          (chirpRun (playChirp c0 sf ef d vol) (k + 1)).phaseInc ∧
      (playChirp c0 sf ef d vol).phaseInc ≤
          (chirpRun (playChirp c0 sf ef d vol) k).phaseInc ∧
      (chirpRun (playChirp c0 sf ef d vol) k).phaseInc ≤
          (playChirp c0 sf ef d vol).targetInc) ∧
    (ef ≤ sf → sf < 44100 → ∀ k,
      (playChirp c0 sf ef d vol).targetInc ≤
          (chirpRun (playChirp c0 sf ef d vol) k).phaseInc) := by
  have hd0 : ¬ d = 0 := by omega
  have hc : playChirp c0 sf ef d vol =
      { active := true, phase := 0, phaseInc := sf * 4294967296 / 44100,
        targetInc := ef * 4294967296 / 44100,
        sweepStep := if 0 < d * 44100 / 1000 then
            Int.tdiv (((ef * 4294967296 / 44100 : Nat) : Int) -
              ((sf * 4294967296 / 44100 : Nat) : Int)) ((d * 44100 / 1000 : Nat) : Int)
          else 0,
        samplesLeft := d * 44100 / 1000, volume := vol % 256 } := by
    unfold playChirp
    rw [if_neg hd0]
  have hT44 : 44 ≤ d * 44100 / 1000 := by
    have h1 : 1 * 44100 ≤ d * 44100 := Nat.mul_le_mul_right 44100 (by omega)
    have h2 : 1 * 44100 / 1000 ≤ d * 44100 / 1000 := Nat.div_le_div_right h1
    omega
  have hTpos : 0 < d * 44100 / 1000 := by omega
  have htgt : ef * 4294967296 / 44100 < 2 ^ 31 := by
    have h1 : ef * 4294967296 ≤ 22049 * 4294967296 :=
      Nat.mul_le_mul_right 4294967296 (by omega)
    have h2 : ef * 4294967296 / 44100 ≤ 22049 * 4294967296 / 44100 :=
      Nat.div_le_div_right h1
    have h3 : 22049 * 4294967296 / 44100 < 2 ^ 31 := by norm_num
    omega
  constructor
  · intro hud
    have hmono : sf * 4294967296 / 44100 ≤ ef * 4294967296 / 44100 :=
      Nat.div_le_div_right (Nat.mul_le_mul_right 4294967296 hud)
    have hm : ((ef * 4294967296 / 44100 : Nat) : Int) -
        ((sf * 4294967296 / 44100 : Nat) : Int) =
        (((ef * 4294967296 / 44100 - sf * 4294967296 / 44100 : Nat)) : Int) := by
      omega
    have hsv : (playChirp c0 sf ef d vol).sweepStep =
        (((ef * 4294967296 / 44100 - sf * 4294967296 / 44100) /
          (d * 44100 / 1000) : Nat) : Int) := by
      rw [hc]
      dsimp only
      rw [if_pos hTpos, hm]
      rfl
    have hq : (ef * 4294967296 / 44100 - sf * 4294967296 / 44100) /
        (d * 44100 / 1000) ≤ 2 ^ 31 := by
      have h1 := Nat.div_le_self (ef * 4294967296 / 44100 - sf * 4294967296 / 44100)
        (d * 44100 / 1000)
      omega
    have hinv := chirpRun_up_inv (playChirp c0 sf ef d vol)
      (by rw [hc]; exact hmono)
      (by rw [hsv]; exact Int.natCast_nonneg _)
      (by rw [hsv]; exact_mod_cast hq)
      (by rw [hc]; exact htgt)
    intro k
    exact ⟨(hinv k).2.2.2.2, (hinv k).2.2.2.1, (hinv k).2.2.1⟩
  · intro hdd hsf
    have hmono : ef * 4294967296 / 44100 ≤ sf * 4294967296 / 44100 :=
      Nat.div_le_div_right (Nat.mul_le_mul_right 4294967296 hdd)
    have hm : ((ef * 4294967296 / 44100 : Nat) : Int) -
        ((sf * 4294967296 / 44100 : Nat) : Int) =
        -(((sf * 4294967296 / 44100 - ef * 4294967296 / 44100 : Nat)) : Int) := by
      omega
    have hsv : (playChirp c0 sf ef d vol).sweepStep =
        -((((sf * 4294967296 / 44100 - ef * 4294967296 / 44100) /
          (d * 44100 / 1000) : Nat)) : Int) := by
      rw [hc]
      dsimp only
      rw [if_pos hTpos, hm, Int.neg_tdiv]
      rfl
    have hq : (sf * 4294967296 / 44100 - ef * 4294967296 / 44100) /
        (d * 44100 / 1000) ≤ 2 ^ 31 := by
      have h1 := Nat.div_le_self (sf * 4294967296 / 44100 - ef * 4294967296 / 44100)
        (d * 44100 / 1000)
      have h2 : sf * 4294967296 / 44100 < 4294967296 := by
        have h3 : sf * 4294967296 ≤ 44099 * 4294967296 :=
          Nat.mul_le_mul_right 4294967296 (by omega)
        have h4 : sf * 4294967296 / 44100 ≤ 44099 * 4294967296 / 44100 :=
          Nat.div_le_div_right h3
        have h5 : 44099 * 4294967296 / 44100 < 4294967296 := by norm_num
        omega
      have h6 : (sf * 4294967296 / 44100 - ef * 4294967296 / 44100) /
          (d * 44100 / 1000) ≤ (sf * 4294967296 / 44100 - ef * 4294967296 / 44100) / 44 :=
        Nat.div_le_div_left hT44 (by omega)
      have h7 : (sf * 4294967296 / 44100 - ef * 4294967296 / 44100) / 44 ≤
          4294967295 / 44 := Nat.div_le_div_right (by omega)
      have h8 : 4294967295 / 44 ≤ 2 ^ 31 := by norm_num
      omega
    have hp32 : sf * 4294967296 / 44100 < U32 := by
      have h3 : sf * 4294967296 ≤ 44099 * 4294967296 :=
        Nat.mul_le_mul_right 4294967296 (by omega)
      have h4 : sf * 4294967296 / 44100 ≤ 44099 * 4294967296 / 44100 :=
        Nat.div_le_div_right h3
      have h5 : 44099 * 4294967296 / 44100 < 4294967296 := by norm_num
      have hU : U32 = 4294967296 := rfl
      omega
    have hinv := chirpRun_down_inv (playChirp c0 sf ef d vol)
      (by rw [hc]; exact hmono)
      (by rw [hsv]; exact neg_nonpos.mpr (Int.natCast_nonneg _))
      (by
        rw [hsv]
        refine neg_le_neg ?_
        exact_mod_cast hq)
      (by rw [hc]; exact htgt)
      (by rw [hc]; exact hp32)
    intro k
    exact (hinv k).2.2.1

/-- Witness for C5: the upward sweep `playChirp(500, 2000, 50, 255)` of
the spec is monotone at the first mixer step and starts at or below its
target increment. -/
theorem chirp_sweep_no_overshoot_witness :
    (chirpRun (playChirp chirpInit 500 2000 50 255) 0).phaseInc ≤
        (chirpRun (playChirp chirpInit 500 2000 50 255) 1).phaseInc ∧
    (chirpRun (playChirp chirpInit 500 2000 50 255) 0).phaseInc ≤
        (playChirp chirpInit 500 2000 50 255).targetInc := by
  have h := (chirp_sweep_no_overshoot chirpInit 500 2000 50 255
    (by decide) (by decide)).1 (by decide) 0
  exact ⟨h.1, h.2.2⟩

theorem chirpToneStep_zero_sweep (c : ChirpState) (hA : c.active = true)
    (hpos : 0 < c.samplesLeft) (hs : c.sweepStep = 0) :
    (chirpToneStep c).1 =
      { c with
        phase := (c.phase + c.phaseInc) % U32
        samplesLeft := c.samplesLeft - 1 } := by
  unfold chirpToneStep
  rw [if_pos hA, if_pos hpos]
  dsimp only
  rw [if_neg (show ¬ c.sweepStep ≠ 0 by simp [hs])]

theorem chirpToneStep_expired (c : ChirpState) (hA : c.active = true)
    (h0 : c.samplesLeft = 0) :
    chirpToneStep c = ({ c with active := false }, 0) := by
  unfold chirpToneStep
  rw [if_pos hA, if_neg (show ¬ 0 < c.samplesLeft by omega)]

theorem chirpToneStep_inactive (c : ChirpState) (hA : c.active = false) :
    chirpToneStep c = (c, 0) := by
  unfold chirpToneStep
  rw [if_neg (show ¬ c.active = true by simp [hA])]

theorem chirpRun_inactive (c : ChirpState) (hA : c.active = false) :
    ∀ k, chirpRun c k = c := by
  intro k
  induction k with
  | zero => rfl
  | succ k ih => rw [chirpRun_succ, chirpToneStep_inactive c hA, ih]

theorem chirpRun_zero_sweep (st : ChirpState) (hA : st.active = true)
    (hs : st.sweepStep = 0) :
    ∀ k, k ≤ st.samplesLeft →
      (chirpRun st k).active = true ∧
      (chirpRun st k).samplesLeft = st.samplesLeft - k ∧
      (chirpRun st k).phaseInc = st.phaseInc ∧
      (chirpRun st k).sweepStep = 0 := by
  intro k
  induction k with
  | zero =>
    intro _
    refine ⟨hA, ?_, rfl, hs⟩
    show st.samplesLeft = st.samplesLeft - 0
    omega
  | succ k ih =>
    intro hk
    obtain ⟨ia, il, ip, is⟩ := ih (by omega)
    have hpos : 0 < (chirpRun st k).samplesLeft := by omega
    have hstep := chirpToneStep_zero_sweep (chirpRun st k) ia hpos is
    rw [chirpRun_succ', hstep]
    refine ⟨ia, ?_, ip, is⟩
    show (chirpRun st k).samplesLeft - 1 = st.samplesLeft - (k + 1)
    omega

/-- C6: `playChirp(1000, 1000, 100, 200)` (zero sweep) arms a constant-
frequency tone that is live for exactly `100 ms x 44100 / 1000 = 4410`
mixer frames (with the phase increment constant and the sample counter
counting down); the 4411-th frame flips `active` to false and from then
on the generator's state is frozen and its contribution to the mix is
zero. -/
theorem chirp_zero_sweep_duration (c0 : ChirpState) :
    (∀ k, k < 4410 →
      (chirpRun (playChirp c0 1000 1000 100 200) k).active = true ∧
      (chirpRun (playChirp c0 1000 1000 100 200) k).samplesLeft = 4410 - k ∧
      (chirpRun (playChirp c0 1000 1000 100 200) k).phaseInc =
        (playChirp c0 1000 1000 100 200).phaseInc) ∧
    (chirpRun (playChirp c0 1000 1000 100 200) 4410).active = true ∧
    (chirpRun (playChirp c0 1000 1000 100 200) 4410).samplesLeft = 0 ∧
    (chirpRun (playChirp c0 1000 1000 100 200) 4411).active = false ∧
    (∀ k, 4411 ≤ k →
      chirpRun (playChirp c0 1000 1000 100 200) k =
        chirpRun (playChirp c0 1000 1000 100 200) 4411 ∧
      (chirpToneStep (chirpRun (playChirp c0 1000 1000 100 200) k)).2 = 0) := by
  have hA : (playChirp c0 1000 1000 100 200).active = true := rfl
  have hs : (playChirp c0 1000 1000 100 200).sweepStep = 0 := rfl
  have hn : (playChirp c0 1000 1000 100 200).samplesLeft = 4410 := rfl
  have hrun := chirpRun_zero_sweep (playChirp c0 1000 1000 100 200) hA hs
  have h4410 := hrun 4410 (by omega)
  have hstop : chirpRun (playChirp c0 1000 1000 100 200) 4411 =
      { chirpRun (playChirp c0 1000 1000 100 200) 4410 with active := false } := by
    rw [chirpRun_succ']
    rw [chirpToneStep_expired _ h4410.1 (by omega)]
  have hfrozen : (chirpRun (playChirp c0 1000 1000 100 200) 4411).active = false := by
    rw [hstop]
  refine ⟨?_, h4410.1, by omega, hfrozen, ?_⟩
  · intro k hk
    have h := hrun k (by omega)
    exact ⟨h.1, by omega, h.2.2.1⟩
  · intro k hk
    have hsplit : k = 4411 + (k - 4411) := by omega
    have heq : chirpRun (playChirp c0 1000 1000 100 200) k =
        chirpRun (playChirp c0 1000 1000 100 200) 4411 := by
      rw [hsplit, chirpRun_add, chirpRun_inactive _ hfrozen]
    refine ⟨heq, ?_⟩
    rw [heq, chirpToneStep_inactive _ hfrozen]

/-- Witness for C6: at frame 100 the generator is still active with 4310
samples left, and at frame 5000 it contributes nothing. -/
theorem chirp_zero_sweep_duration_witness :
    (chirpRun (playChirp chirpInit 1000 1000 100 200) 100).active = true ∧
    (chirpRun (playChirp chirpInit 1000 1000 100 200) 100).samplesLeft = 4410 - 100 ∧
    (chirpToneStep (chirpRun (playChirp chirpInit 1000 1000 100 200) 5000)).2 = 0 := by
  have h := chirp_zero_sweep_duration chirpInit
  have h1 := h.1 100 (by omega)
  have h2 := (h.2.2.2.2 5000 (by omega)).2
  exact ⟨h1.1, h1.2.1, h2⟩

/-! ### Mixer lemmas (C4, C10) -/

theorem clamp_left (l r : Int) :
    i32_to_i16 (applyFastLimiter l r).1 = max (-32768) (min 32767 l) := by
  unfold i32_to_i16 applyFastLimiter
  dsimp only
  split_ifs <;> omega

theorem clamp_right (l r : Int) :
    i32_to_i16 (applyFastLimiter l r).2 = max (-32768) (min 32767 r) := by
  unfold i32_to_i16 applyFastLimiter
  dsimp only
  split_ifs <;> omega

theorem pop_value_bound (rb : RingBuffer)
    (hd : ∀ j, -32768 ≤ rb.data j ∧ rb.data j ≤ 32767) :
    -32768 ≤ rb.pop.2 ∧ rb.pop.2 ≤ 32767 := by
  unfold RingBuffer.pop
  split
  · exact hd rb.readPos
  · exact ⟨by norm_num, by norm_num⟩

theorem pop_data_eq (rb : RingBuffer) : rb.pop.1.data = rb.data := by
  unfold RingBuffer.pop
  split
  · rfl
  · rfl

theorem volFixed_bound (v : Rat) (h0 : 0 ≤ v) (h1 : v ≤ 1) :
    0 ≤ Int.fdiv (v.num * 256) (v.den : Int) ∧
    Int.fdiv (v.num * 256) (v.den : Int) ≤ 256 := by
  have hden : (0 : Int) < (v.den : Int) := by exact_mod_cast v.pos
  rw [Int.fdiv_eq_ediv _ (le_of_lt hden)]
  have hnum0 : 0 ≤ v.num := Rat.num_nonneg.mpr h0
  have hnd : v.num ≤ (v.den : Int) := by
    rw [Rat.le_def] at h1
    simpa using h1
  constructor
  · exact Int.ediv_nonneg (by positivity) (le_of_lt hden)
  · calc v.num * 256 / (v.den : Int)
        ≤ (v.den : Int) * 256 / (v.den : Int) :=
          Int.ediv_le_ediv hden (by nlinarith)
      _ = 256 := by
          rw [mul_comm]
          exact Int.mul_ediv_cancel 256 (by omega)

theorem gain_range (a b : Int) (ha1 : 0 ≤ a) (ha2 : a ≤ 256) (hb1 : 0 ≤ b)
    (hb2 : b ≤ 256) : 0 ≤ a * b / 2 ^ 8 ∧ a * b / 2 ^ 8 ≤ 256 := by
  have h1 : 0 ≤ a * b := mul_nonneg ha1 hb1
  have h2 : a * b ≤ 256 * 256 := by nlinarith
  omega

theorem gain_out_bound (x g : Int) (hx1 : -32768 ≤ x) (hx2 : x ≤ 32767)
    (hg1 : 0 ≤ g) (hg2 : g ≤ 256) :
    -32768 ≤ x * g / 2 ^ 8 ∧ x * g / 2 ^ 8 ≤ 32767 := by
  have hl : -32768 * 256 ≤ x * g := by nlinarith
  have hu : x * g ≤ 32767 * 256 := by nlinarith
  omega

theorem streamStep_out_bound (now : Nat) (master : Int) (s : MixStream)
    (hm1 : 0 ≤ master) (hm2 : master ≤ 256)
    (hv0 : 0 ≤ s.volume) (hv1 : s.volume ≤ 1)
    (hd : ∀ j, -32768 ≤ s.rb.data j ∧ s.rb.data j ≤ 32767) :
    (-32768 ≤ (streamStep now master s).2.1 ∧ (streamStep now master s).2.1 ≤ 32767) ∧
    (-32768 ≤ (streamStep now master s).2.2 ∧ (streamStep now master s).2.2 ≤ 32767) := by
  unfold streamStep
  split
  · dsimp only
    have hvf := volFixed_bound s.volume hv0 hv1
    have hp1 := pop_value_bound s.rb hd
    have hp2 := pop_value_bound s.rb.pop.1 (by rw [pop_data_eq]; exact hd)
    by_cases hE : ((now % U32) + U32 - (s.startTime % U32)) % U32 < 50
    · rw [if_pos hE]
      set r0 : Int :=
        (((((now % U32) + U32 - (s.startTime % U32)) % U32 * 256) / 50 : Nat) : Int) with hr0
      have hr1 : (0 : Int) ≤ r0 := Int.natCast_nonneg _
      by_cases h256 : 256 < r0
      · rw [if_pos h256]
        have hvf' := gain_range _ 256 hvf.1 hvf.2 (by norm_num) (by norm_num)
        have hg := gain_range _ master hvf'.1 hvf'.2 hm1 hm2
        unfold asr
        exact ⟨gain_out_bound _ _ hp1.1 hp1.2 hg.1 hg.2,
          gain_out_bound _ _ hp2.1 hp2.2 hg.1 hg.2⟩
      · rw [if_neg h256]
        have hvf' := gain_range _ r0 hvf.1 hvf.2 hr1 (by omega)
        have hg := gain_range _ master hvf'.1 hvf'.2 hm1 hm2
        unfold asr
        exact ⟨gain_out_bound _ _ hp1.1 hp1.2 hg.1 hg.2,
          gain_out_bound _ _ hp2.1 hp2.2 hg.1 hg.2⟩
    · rw [if_neg hE]
      have hg := gain_range _ master hvf.1 hvf.2 hm1 hm2
      unfold asr
      exact ⟨gain_out_bound _ _ hp1.1 hp1.2 hg.1 hg.2,
        gain_out_bound _ _ hp2.1 hp2.2 hg.1 hg.2⟩
  · exact ⟨⟨by norm_num, by norm_num⟩, ⟨by norm_num, by norm_num⟩⟩

theorem mixStreams_bound : ∀ (l : List MixStream) (now : Nat) (master : Int),
    0 ≤ master → master ≤ 256 →
    (∀ s ∈ l, 0 ≤ s.volume ∧ s.volume ≤ 1 ∧
      ∀ j, -32768 ≤ s.rb.data j ∧ s.rb.data j ≤ 32767) →
    (-32768 * (l.length : Int) ≤ (mixStreams now master l).2.1 ∧
      (mixStreams now master l).2.1 ≤ 32767 * (l.length : Int)) ∧
    (-32768 * (l.length : Int) ≤ (mixStreams now master l).2.2 ∧
      (mixStreams now master l).2.2 ≤ 32767 * (l.length : Int)) := by
  intro l
  induction l with
  | nil =>
    intro now master _ _ _
    refine ⟨⟨?_, ?_⟩, ?_, ?_⟩ <;> norm_num [mixStreams]
  | cons s rest ih =>
    intro now master hm1 hm2 hall
    have hs := hall s (List.mem_cons_self s rest)
    have hrest := ih now master hm1 hm2 (fun t ht => hall t (List.mem_cons_of_mem s ht))
    have hout := streamStep_out_bound now master s hm1 hm2 hs.1 hs.2.1 hs.2.2
    have hstep : mixStreams now master (s :: rest) =
        ((streamStep now master s).1 :: (mixStreams now master rest).1,
          (streamStep now master s).2.1 + (mixStreams now master rest).2.1,
          (streamStep now master s).2.2 + (mixStreams now master rest).2.2) := rfl
    rw [hstep]
    dsimp only
    simp only [List.length_cons]
    push_cast
    constructor
    · constructor
      · have := hrest.1.1
        have := hout.1.1
        nlinarith
      · have := hrest.1.2
        have := hout.1.2
        nlinarith
    · constructor
      · have := hrest.2.1
        have := hout.2.1
        nlinarith
      · have := hrest.2.2
        have := hout.2.2
        nlinarith

set_option maxRecDepth 4000 in
theorem lut_bound : ∀ i, -127 ≤ SINE_LUT.getD i 0 ∧ SINE_LUT.getD i 0 ≤ 127 := by
  have hall : ∀ x ∈ SINE_LUT, -127 ≤ x ∧ x ≤ 127 := by decide
  intro i
  rcases Nat.lt_or_ge i SINE_LUT.length with h | h
  · rw [List.getD_eq_getElem _ _ h]
    exact hall _ (List.getElem_mem h)
  · rw [List.getD_eq_default _ _ h]
    exact ⟨by norm_num, by norm_num⟩

theorem chirpToneStep_out_bound (c : ChirpState) (hv : c.volume ≤ 255) :
    -32768 < (chirpToneStep c).2 ∧ (chirpToneStep c).2 < 32768 := by
  unfold chirpToneStep
  split
  · split
    · dsimp only
      have hl := lut_bound (c.phase / 2 ^ 24)
      have hv1 : (0 : Int) ≤ (c.volume : Int) := Int.natCast_nonneg _
      have hv2 : (c.volume : Int) ≤ 255 := by exact_mod_cast hv
      unfold asr
      have h1 : -(8290560 : Int) ≤ SINE_LUT.getD (c.phase / 2 ^ 24) 0 * 256 *
          (c.volume : Int) := by nlinarith [hl.1, hl.2]
      have h2 : SINE_LUT.getD (c.phase / 2 ^ 24) 0 * 256 * (c.volume : Int) ≤
          8290560 := by nlinarith [hl.1, hl.2]
      omega
    · exact ⟨by norm_num, by norm_num⟩
  · exact ⟨by norm_num, by norm_num⟩

theorem mixStreams_streams : ∀ (l : List MixStream) (now : Nat) (master : Int),
    (mixStreams now master l).1 = l.map (fun t => (streamStep now master t).1) := by
  intro l
  induction l with
  | nil => intro now master; rfl
  | cons s rest ih =>
    intro now master
    show (streamStep now master s).1 :: (mixStreams now master rest).1 = _
    rw [ih, List.map_cons]

/-- C10: in every `Mixer::processSample` frame, a stream's ring buffer
is popped only when the stream is active with at least 2 buffered
samples, and then exactly twice (availableForRead drops by exactly 2 and
the two oldest samples leave the queue); any other stream — in
particular an inactive one — is left entirely unchanged. -/
theorem mixer_pop_discipline (now : Nat) (master : Int) (s : MixStream)
    (streams : List MixStream) (c : ChirpState)
    (hA : s.rb.allocated = true) (hwf : s.rb.wf) :
    (¬(s.active = true ∧ 2 ≤ s.rb.availableForRead) →
      (streamStep now master s).1 = s) ∧
    ((s.active = true ∧ 2 ≤ s.rb.availableForRead) →
      (streamStep now master s).1.rb = (s.rb.pop.1.pop).1 ∧
      (streamStep now master s).1.rb.availableForRead = s.rb.availableForRead - 2 ∧
      (streamStep now master s).1.rb.contents = s.rb.contents.tail.tail) ∧
    (processSample now master streams c).streams =
      streams.map (fun t => (streamStep now master t).1) := by
  refine ⟨?_, ?_, mixStreams_streams streams now master⟩
  · intro h
    unfold streamStep
    rw [if_neg h]
  · intro h
    obtain ⟨-, hc1, hA1, hwf1, hr1, -⟩ := pop_spec s.rb hA hwf (by omega)
    obtain ⟨-, hc2, -, -, hr2, -⟩ := pop_spec s.rb.pop.1 hA1 hwf1 (by omega)
    have hstep : (streamStep now master s).1 = { s with rb := (s.rb.pop.1.pop).1 } := by
      unfold streamStep
      rw [if_pos h]
    rw [hstep]
    exact ⟨rfl, by rw [hr2, hr1]; omega, by rw [hc2, hc1]⟩

/-- Witness for C10: an inactive stream's slot is untouched by the
mixer step. -/
theorem mixer_pop_discipline_witness :
    (streamStep 0 256 { fullVolStream with active := false }).1 =
      { fullVolStream with active := false } :=
  (mixer_pop_discipline 0 256 { fullVolStream with active := false } [] chirpInit
    rfl (by decide)).1 (by decide)

/-- C4: every emitted mixer sample equals the hard clamp of the 32-bit
accumulator into the signed 16-bit range (exactly 32767 above, -32768
below, the identity in range — never a wrapped value); under the
system's operating bounds (volumes in [0,1], master multiplier at most
256, at most 3 streams, 8-bit chirp volume, 16-bit buffered samples) the
accumulator itself stays far inside the `int32_t` range; and two
full-volume streams of 30000-valued samples accumulate to 60000 and
emit exactly the saturation bound 32767. -/
theorem mixer_output_clamped (now : Nat) (master : Int) (streams : List MixStream)
    (c : ChirpState) :
    ((processSample now master streams c).outLeft =
        max (-32768) (min 32767 (processSample now master streams c).accLeft) ∧
      (processSample now master streams c).outRight =
        max (-32768) (min 32767 (processSample now master streams c).accRight)) ∧
    (0 ≤ master → master ≤ 256 → streams.length ≤ 3 → c.volume ≤ 255 →
      (∀ s ∈ streams, 0 ≤ s.volume ∧ s.volume ≤ 1 ∧
        ∀ j, -32768 ≤ s.rb.data j ∧ s.rb.data j ≤ 32767) →
      -(2 ^ 31 : Int) < (processSample now master streams c).accLeft ∧
      (processSample now master streams c).accLeft < 2 ^ 31 ∧
      -(2 ^ 31 : Int) < (processSample now master streams c).accRight ∧
      (processSample now master streams c).accRight < 2 ^ 31) ∧
    (processSample 1000 256 [fullVolStream, fullVolStream] chirpInit).accLeft = 60000 ∧
    (processSample 1000 256 [fullVolStream, fullVolStream] chirpInit).outLeft = 32767 := by
  refine ⟨⟨clamp_left _ _, clamp_right _ _⟩, ?_, by decide, by decide⟩
  intro hm1 hm2 hlen hcv hall
  have hmix := mixStreams_bound streams now master hm1 hm2 hall
  have hchirp := chirpToneStep_out_bound c hcv
  have hlen' : ((streams.length : Int)) ≤ 3 := by exact_mod_cast hlen
  have hL1 := hmix.1.1
  have hL2 := hmix.1.2
  have hR1 := hmix.2.1
  have hR2 := hmix.2.2
  have hacc : (processSample now master streams c).accLeft =
      (mixStreams now master streams).2.1 + (chirpToneStep c).2 := rfl
  have hacc2 : (processSample now master streams c).accRight =
      (mixStreams now master streams).2.2 + (chirpToneStep c).2 := rfl
  rw [hacc, hacc2]
  have hlb : -32768 * (streams.length : Int) ≥ -32768 * 3 := by nlinarith
  have hub : 32767 * (streams.length : Int) ≤ 32767 * 3 := by nlinarith
  refine ⟨by nlinarith [hchirp.1], by nlinarith [hchirp.2], by nlinarith [hchirp.1],
    by nlinarith [hchirp.2]⟩

/-- Witness for C4: instantiation at the concrete two-stream saturation
scenario with bounds hypotheses discharged. -/
theorem mixer_output_clamped_witness :
    (processSample 1000 256 [fullVolStream, fullVolStream] chirpInit).outLeft = 32767 ∧
    -(2 ^ 31 : Int) <
      (processSample 1000 256 [fullVolStream, fullVolStream] chirpInit).accLeft := by
  have h := mixer_output_clamped 1000 256 [fullVolStream, fullVolStream] chirpInit
  refine ⟨h.2.2.2, ?_⟩
  have hb := h.2.1 (by norm_num) (by norm_num) (by decide) (by decide) ?_
  · exact hb.1
  · intro s hs
    simp only [List.mem_cons, List.not_mem_nil, or_false] at hs
    have hmem : s = fullVolStream := by
      rcases hs with h1 | h1 <;> exact h1
    subst hmem
    exact ⟨by norm_num [fullVolStream], by norm_num [fullVolStream],
      fun j => ⟨by norm_num [fullVolStream], by norm_num [fullVolStream]⟩⟩

/-- Witness for C9: popping the freshly cleared (empty) buffer advances
the read cursor and makes the buffer report `STREAM_BUFFER_SIZE - 1`
readable samples. -/
theorem pop_empty_behavior_witness :
    rbEmpty.pop = ({ rbEmpty with readPos := 1 % STREAM_BUFFER_SIZE }, rbEmpty.data 0) ∧
    (rbEmpty.pop).1.availableForRead = STREAM_BUFFER_SIZE - 1 :=
  pop_empty_behavior rbEmpty rfl (by decide) (by decide)

/-! ### Stream-lifecycle lemmas (C3, C7, C8) -/

theorem getD_set_self {α : Type} : ∀ (l : List α) (i : Nat) (a d : α),
    i < l.length → (l.set i a).getD i d = a := by
  intro l
  induction l with
  | nil => intro i a d h; simp at h
  | cons x xs ih =>
    intro i a d h
    cases i with
    | zero => rfl
    | succ i =>
      show (xs.set i a).getD i d = a
      exact ih i a d (by simpa using h)

theorem stopStream_noop (sys : AudioSys) (idx : Int)
    (h : (sys.streams.getD idx.toNat defaultStream).active = false ∧
      (sys.streams.getD idx.toNat defaultStream).type = StreamType.inactive) :
    stopStream sys idx = sys := by
  unfold stopStream
  split
  · rfl
  · dsimp only
    rw [if_pos h]

theorem stopStream_makes_inactive (sys : AudioSys) (idx : Int)
    (hr : ¬(idx < 0 ∨ (MAX_STREAMS : Int) ≤ idx)) :
    ((stopStream sys idx).streams.getD idx.toNat defaultStream).active = false ∧
    ((stopStream sys idx).streams.getD idx.toNat defaultStream).type =
      StreamType.inactive := by
  unfold stopStream
  rw [if_neg hr]
  dsimp only
  by_cases hg : (sys.streams.getD idx.toNat defaultStream).active = false ∧
      (sys.streams.getD idx.toNat defaultStream).type = StreamType.inactive
  · rw [if_pos hg]
    exact hg
  · rw [if_neg hg]
    dsimp only
    by_cases hlen : idx.toNat < sys.streams.length
    · rw [getD_set_self _ _ _ _ hlen]
      refine ⟨?_, rfl⟩
      repeat' split
      all_goals rfl
    · rw [List.getD_eq_default _ _ (by rw [List.length_set]; omega)]
      exact ⟨rfl, rfl⟩

/-- C8: `stopStream` is idempotent — stopping a slot twice leaves the
same state as stopping it once, and stopping a slot that is already
inactive (`active == false` and type `STREAM_TYPE_INACTIVE`) changes no
stream, decoder-pool or ring-buffer state at all. -/
theorem stopStream_idempotent (sys : AudioSys) (idx : Int) :
    stopStream (stopStream sys idx) idx = stopStream sys idx ∧
    ((sys.streams.getD idx.toNat defaultStream).active = false ∧
      (sys.streams.getD idx.toNat defaultStream).type = StreamType.inactive →
      stopStream sys idx = sys) := by
  constructor
  · by_cases hrange : idx < 0 ∨ (MAX_STREAMS : Int) ≤ idx
    · have h : stopStream sys idx = sys := by
        unfold stopStream
        rw [if_pos hrange]
      rw [h, h]
    · exact stopStream_noop _ idx (stopStream_makes_inactive sys idx hrange)
  · exact stopStream_noop sys idx

/-- Witness for C8: stopping an already-inactive slot of a fresh system
is a no-op, and hence stopping twice equals stopping once. -/
theorem stopStream_idempotent_witness :
    stopStream sysFresh 0 = sysFresh :=
  (stopStream_idempotent sysFresh 0).2 ⟨rfl, rfl⟩

theorem findFreeDecoder_all_true : ∀ (l : List Bool),
    (∀ b ∈ l, b = true) → findFreeDecoder l = none := by
  intro l
  induction l with
  | nil => intro _; rfl
  | cons b rest ih =>
    intro h
    have hb : b = true := h b (List.mem_cons_self b rest)
    show (if b then (findFreeDecoder rest).map (· + 1) else some 0) = none
    rw [if_pos hb, ih (fun x hx => h x (List.mem_cons_of_mem b hx))]
    rfl

/-- C3 (amended): `startStream` returns false and leaves the slot
inactive when the file cannot be opened (flash or SD tier) or, for an
MP3 path, when every decoder-pool entry is in use.  (WAV header
contents are never validated — see the counterexample theorem: a header
without RIFF/WAVE/PCM markers and without a `data` chunk is still
accepted and the stream is activated.) -/
theorem startStream_failure_inactive (env : Env) (sys : AudioSys) (idx : Int)
    (filename : List Nat) (hr : ¬(idx < 0 ∨ (MAX_STREAMS : Int) ≤ idx)) :
    (startsWithBytes filename flashTag = true → env.flashFS filename = none →
      startStream env sys idx filename = (stopStream sys idx, false) ∧
      ((startStream env sys idx filename).1.streams.getD idx.toNat
        defaultStream).active = false) ∧
    (startsWithBytes filename flashTag = false → env.sdFS filename = none →
      startStream env sys idx filename = (stopStream sys idx, false) ∧
      ((startStream env sys idx filename).1.streams.getD idx.toNat
        defaultStream).active = false) ∧
    (startsWithBytes filename flashTag = false →
      endsWithBytes (lowerBytes filename) mp3Tag = true →
      ∀ bs, env.sdFS filename = some bs →
      findFreeDecoder (stopStream sys idx).decoderInUse = none →
      startStream env sys idx filename = (stopStream sys idx, false) ∧
      ((startStream env sys idx filename).1.streams.getD idx.toNat
        defaultStream).active = false) := by
  have hslot := stopStream_makes_inactive sys idx hr
  refine ⟨?_, ?_, ?_⟩
  · intro hflash hopen
    have heq : startStream env sys idx filename = (stopStream sys idx, false) := by
      unfold startStream
      rw [if_neg hr]
      dsimp only
      rw [hflash, if_pos rfl, hopen]
    exact ⟨heq, by rw [heq]; exact hslot.1⟩
  · intro hflash hopen
    have heq : startStream env sys idx filename = (stopStream sys idx, false) := by
      unfold startStream
      rw [if_neg hr]
      dsimp only
      rw [hflash, if_neg (by simp), hopen]
    exact ⟨heq, by rw [heq]; exact hslot.1⟩
  · intro hflash hmp3 bs hopen hpool
    have heq : startStream env sys idx filename = (stopStream sys idx, false) := by
      unfold startStream
      rw [if_neg hr]
      dsimp only
      rw [hflash, if_neg (by simp), hopen]
      dsimp only
      rw [hmp3, if_pos rfl, hpool]
    exact ⟨heq, by rw [heq]; exact hslot.1⟩

/-- Witness for C3 (amended): opening a missing flash file fails and the
slot stays inactive. -/
theorem startStream_failure_inactive_witness :
    startStream envBad sysFresh 1 flashName = (stopStream sysFresh 1, false) ∧
    ((startStream envBad sysFresh 1 flashName).1.streams.getD 1
      defaultStream).active = false :=
  (startStream_failure_inactive envBad sysFresh 1 flashName (by decide)).1 rfl rfl

/-- Counterexample for C3 as stated: `startStream` performs no
RIFF/WAVE/PCM header validation.  A 44-byte SD file of `'A'` bytes — no
RIFF/WAVE/PCM markers and no `data` chunk — is accepted: the call
returns true and activates the slot, contradicting "a WAV file whose
header lacks the RIFF/WAVE/PCM markers is treated as failed to open". -/
theorem startStream_malformed_wav_counterexample :
    (startStream envBad sysFresh 0 badWav).2 = true ∧
    ((startStream envBad sysFresh 0 badWav).1.streams.getD 0
      defaultStream).active = true := by
  constructor
  · decide
  · decide

/-- C7: `startStream` on an inactive slot with an `.mp3` SD path, when
every decoder-pool entry is in use, returns false and leaves the entire
system state — every pool in-use flag and the (inactive) slot —
unchanged. -/
theorem startStream_mp3_pool_exhausted (env : Env) (sys : AudioSys) (idx : Int)
    (filename : List Nat) (bs : List Nat)
    (hr : ¬(idx < 0 ∨ (MAX_STREAMS : Int) ≤ idx))
    (hinact : (sys.streams.getD idx.toNat defaultStream).active = false ∧
      (sys.streams.getD idx.toNat defaultStream).type = StreamType.inactive)
    (hflash : startsWithBytes filename flashTag = false)
    (hmp3 : endsWithBytes (lowerBytes filename) mp3Tag = true)
    (hopen : env.sdFS filename = some bs)
    (hpool : ∀ b ∈ sys.decoderInUse, b = true) :
    startStream env sys idx filename = (sys, false) := by
  have hstop : stopStream sys idx = sys := stopStream_noop sys idx hinact
  unfold startStream
  rw [if_neg hr]
  dsimp only
  rw [hstop, hflash, if_neg (by simp), hopen]
  dsimp only
  rw [hmp3, if_pos rfl, findFreeDecoder_all_true sys.decoderInUse hpool]

/-- Witness for C7: with both decoders checked out, starting `"a.mp3"`
fails and the system — pool flags included — is exactly unchanged. -/
theorem startStream_mp3_pool_exhausted_witness :
    startStream envMp3 sysBusy 0 mp3Name = (sysBusy, false) :=
  startStream_mp3_pool_exhausted envMp3 sysBusy 0 mp3Name [1, 2, 3]
    (by decide) ⟨rfl, rfl⟩ rfl rfl rfl (by decide)

end AudioEngine
